import Mathlib

/-!
Verification of the voxel-based void-classification pipeline of the
`porate` repository (`pore/voxel.py`, `pore/pore.py`, `scripts/porate.py`).

Voxels are integer grid triples.  The pipeline partitions the grid into
protein and solvent voxels, splits the solvent voxels into exposed and
buried ones by a six-direction occlusion test, agglomerates the buried
voxels into 6-connected components by breadth-first search, and classifies
each component as a pore or a cavity by the connectivity of its surface
contact set.
-/

/-- A voxel is a triple of grid coordinates, `(x, y, z)`. -/
abbrev Voxel := ℕ × ℕ × ℕ

/-- Embedding of `pore/types.py`-style `VoxelGroup` records exactly as they
are constructed throughout `pore/voxel.py`: the coordinate arrays, the set
of linear indices, the voxel count, the kind tag and the volume. -/
structure VoxelGroup where
  voxels : List Voxel
  indices : Finset ℕ
  num_voxels : ℕ
  voxel_type : String
  volume : ℚ
deriving DecidableEq

/-- Modelled from the spec: `pore/constants.py` is not under `src/`.  The
occlusion threshold is fixed at 4 by the docstring of `is_buried` in
`pore/voxel.py` and by spec section 4.3 (`p = 4` is the matched-pair case). -/
def OCCLUDED_DIMENSION_LIMIT : ℕ := 4

/-- Modelled from the spec: `pore/constants.py` is not under `src/` and the
spec (sections 5 and 6) requires the voxel edge length `S` to be passed
explicitly per analysis invocation, with default 1.0.  `VOXEL_VOLUME` in
`pore/voxel.py` is `VOXEL_SIZE ** 3`; here it is a function of the
configured edge length. -/
def VOXEL_VOLUME (S : ℚ) : ℚ := S ^ 3

/-- Embedding of `is_neighbor_voxel` (`pore/voxel.py` lines 210-222): two
voxels are ordinal neighbours when the sum over the three axes of the
absolute coordinate differences is exactly 1. -/
def is_neighbor_voxel (v w : Voxel) : Bool :=
  ((v.1 : ℤ) - w.1).natAbs + ((v.2.1 : ℤ) - w.2.1).natAbs
    + ((v.2.2 : ℤ) - w.2.2).natAbs = 1

/-- Embedding of `get_single_voxel` (`pore/voxel.py` lines 225-233): read the
voxel at a given position of the coordinate arrays.  The arrays are modelled
as a single list of triples; callers only use in-range positions. -/
def get_single_voxel (voxels : List Voxel) (index : ℕ) : Voxel :=
  voxels.getD index (0, 0, 0)

/-- Embedding of `compute_voxel_indices` (`pore/voxel.py` lines 236-244): the
set of linear indices `x * Ny * Nz + y * Nz + z` of a list of voxels. -/
def compute_voxel_indices (voxels : List Voxel) (dims : Voxel) : Finset ℕ :=
  (voxels.map (fun v => v.1 * dims.2.1 * dims.2.2 + v.2.1 * dims.2.2 + v.2.2)).toFinset

/-- Python `min` over a nonempty list (0 on the empty list, which the source
never queries). -/
def list_min : List ℕ → ℕ
  | [] => 0
  | x :: xs => xs.foldl min x

/-- Python `max` over a nonempty list (0 on the empty list, which the source
never queries). -/
def list_max : List ℕ → ℕ
  | [] => 0
  | x :: xs => xs.foldl max x

/-- Embedding of `get_occluded_dimensions` (`pore/voxel.py` lines 87-114).
The six entries are, in order, `x-`, `x+`, `y-`, `y+`, `z-`, `z+`; an entry
is 1 exactly when the source's guarded comparison sets it (the source
initialises the list to zeros and fills the three axes in the order z, y, x,
which touches disjoint slots, so the resulting list is the same). -/
def get_occluded_dimensions (query_voxel : Voxel)
    (possible_occluding_x possible_occluding_y possible_occluding_z : List ℕ) :
    List ℕ :=
  [ if possible_occluding_x ≠ [] ∧ list_min possible_occluding_x < query_voxel.1 then 1 else 0,
    if possible_occluding_x ≠ [] ∧ list_max possible_occluding_x > query_voxel.1 then 1 else 0,
    if possible_occluding_y ≠ [] ∧ list_min possible_occluding_y < query_voxel.2.1 then 1 else 0,
    if possible_occluding_y ≠ [] ∧ list_max possible_occluding_y > query_voxel.2.1 then 1 else 0,
    if possible_occluding_z ≠ [] ∧ list_min possible_occluding_z < query_voxel.2.2 then 1 else 0,
    if possible_occluding_z ≠ [] ∧ list_max possible_occluding_z > query_voxel.2.2 then 1 else 0 ]

/-- Embedding of `is_buried` (`pore/voxel.py` lines 117-135): more than
`OCCLUDED_DIMENSION_LIMIT` occluded directions means buried; exactly the
limit means buried precisely when one whole axis (both directions) is
unoccluded; fewer means exposed. -/
def is_buried (occluded_dimensions : List ℕ) : Bool :=
  if occluded_dimensions.count 1 > OCCLUDED_DIMENSION_LIMIT then
    true
  else if occluded_dimensions.count 1 = OCCLUDED_DIMENSION_LIMIT then
    if occluded_dimensions.getD 0 0 = 0 ∧ occluded_dimensions.getD 1 0 = 0 then
      true
    else if occluded_dimensions.getD 2 0 = 0 ∧ occluded_dimensions.getD 3 0 = 0 then
      true
    else if occluded_dimensions.getD 4 0 = 0 ∧ occluded_dimensions.getD 5 0 = 0 then
      true
    else
      false
  else
    false

/-- Embedding of the `x_array` columns of `build_planar_voxel_coordinate_arrays`
(`pore/voxel.py` lines 138-154): the loop appends, for each voxel `(i, j, k)`
of the input in order, the value `i` to the cell `x_array[j][k]`; a cell of
the resulting nested array is therefore the list of first coordinates of the
input voxels whose last two coordinates match the cell, in input order. -/
def x_array_col : List Voxel → ℕ → ℕ → List ℕ
  | [], _, _ => []
  | v :: vs, j, k =>
      (if v.2.1 = j ∧ v.2.2 = k then [v.1] else []) ++ x_array_col vs j k

/-- Embedding of the `y_array` columns of `build_planar_voxel_coordinate_arrays`
(`pore/voxel.py` lines 138-154), indexed by the `(x, z)` coordinates. -/
def y_array_col : List Voxel → ℕ → ℕ → List ℕ
  | [], _, _ => []
  | v :: vs, i, k =>
      (if v.1 = i ∧ v.2.2 = k then [v.2.1] else []) ++ y_array_col vs i k

/-- Embedding of the `z_array` columns of `build_planar_voxel_coordinate_arrays`
(`pore/voxel.py` lines 138-154), indexed by the `(x, y)` coordinates. -/
def z_array_col : List Voxel → ℕ → ℕ → List ℕ
  | [], _, _ => []
  | v :: vs, i, j =>
      (if v.1 = i ∧ v.2.1 = j then [v.2.2] else []) ++ z_array_col vs i j

/-- All voxels of the grid in row-major order, the order in which
`np.nonzero` enumerates the cells of the 3D occupancy array. -/
def grid_voxels (dims : Voxel) : List Voxel :=
  (List.range dims.1).flatMap (fun i =>
    (List.range dims.2.1).flatMap (fun j =>
      (List.range dims.2.2).map (fun k => (i, j, k))))

/-- Embedding of `get_protein_and_solvent_voxels` (`pore/voxel.py` lines
55-84).  The binary occupancy array is modelled as a predicate on voxels;
protein voxels are the occupied cells, solvent voxels the rest, both
enumerated in row-major order as `np.nonzero` does. -/
def get_protein_and_solvent_voxels (S : ℚ) (binary_voxel_array : Voxel → Bool)
    (voxel_grid_dimensions : Voxel) : VoxelGroup × VoxelGroup :=
  let protein_voxels := (grid_voxels voxel_grid_dimensions).filter
    (fun v => binary_voxel_array v)
  let solvent_voxels := (grid_voxels voxel_grid_dimensions).filter
    (fun v => ! binary_voxel_array v)
  let protein_voxel_indices := compute_voxel_indices protein_voxels voxel_grid_dimensions
  let solvent_voxel_indices := compute_voxel_indices solvent_voxels voxel_grid_dimensions
  (⟨protein_voxels, protein_voxel_indices, protein_voxel_indices.card, "protein",
      (protein_voxel_indices.card : ℚ) * VOXEL_VOLUME S⟩,
   ⟨solvent_voxels, solvent_voxel_indices, solvent_voxel_indices.card, "solvent",
      (solvent_voxel_indices.card : ℚ) * VOXEL_VOLUME S⟩)

/-- The occlusion vector of a query voxel against the protein columns, as
assembled by `get_exposed_and_buried_voxels` (`pore/voxel.py` lines 170-178):
the `x` column at the query's `(y, z)`, the `y` column at `(x, z)` and the
`z` column at `(x, y)`. -/
def occlusion_of (protein_voxels : List Voxel) (q : Voxel) : List ℕ :=
  get_occluded_dimensions q
    (x_array_col protein_voxels q.2.1 q.2.2)
    (y_array_col protein_voxels q.1 q.2.2)
    (z_array_col protein_voxels q.1 q.2.1)

/-- Embedding of `get_exposed_and_buried_voxels` (`pore/voxel.py` lines
157-207): each solvent voxel goes to the buried pile when `is_buried` holds
of its occlusion vector and to the exposed pile otherwise, preserving input
order; the function returns `(exposed, buried)`. -/
def get_exposed_and_buried_voxels (S : ℚ) (solvent_voxels protein_voxels : VoxelGroup)
    (voxel_grid_dimensions : Voxel) : VoxelGroup × VoxelGroup :=
  let buried := solvent_voxels.voxels.filter
    (fun q => is_buried (occlusion_of protein_voxels.voxels q))
  let exposed := solvent_voxels.voxels.filter
    (fun q => ! is_buried (occlusion_of protein_voxels.voxels q))
  let buried_voxel_indices := compute_voxel_indices buried voxel_grid_dimensions
  let exposed_voxel_indices := compute_voxel_indices exposed voxel_grid_dimensions
  (⟨exposed, exposed_voxel_indices, exposed_voxel_indices.card, "exposed",
      (exposed_voxel_indices.card : ℚ) * VOXEL_VOLUME S⟩,
   ⟨buried, buried_voxel_indices, buried_voxel_indices.card, "buried",
      (buried_voxel_indices.card : ℚ) * VOXEL_VOLUME S⟩)

/-- A selector models Python's `set.pop()`: it returns some element of a
nonempty set.  The element returned by CPython is unspecified by the
language, so the embedding is parametrised over the choice. -/
structure Selector where
  pick : (s : Finset ℕ) → s.Nonempty → ℕ
  mem_pick : ∀ s h, pick s h ∈ s

/-- The selector that always pops the smallest element. -/
def minSelector : Selector :=
  ⟨fun s h => s.min' h, fun s h => s.min'_mem h⟩

/-- The selector that always pops the largest element. -/
def maxSelector : Selector :=
  ⟨fun s h => s.max' h, fun s h => s.max'_mem h⟩

/-- The searched indices adjacent to the current voxel, as collected by the
inner `for` loop of `breadth_first_search` (`pore/voxel.py` lines 260-264). -/
def bfs_found (voxels : List Voxel) (current : ℕ) (searchable : Finset ℕ) : Finset ℕ :=
  searchable.filter (fun i =>
    is_neighbor_voxel (get_single_voxel voxels current) (get_single_voxel voxels i))

/-- Embedding of the `while` loop of `breadth_first_search` (`pore/voxel.py`
lines 257-265).  One fuel unit is spent per iteration; the fuel passed by
`breadth_first_search` is shown sufficient below.  Each iteration pops an
element of the queue, adds every adjacent searchable index to the queue and
to the accumulated neighbour set, and removes the accumulated neighbour set
from the searchable set. -/
def bfs_loop (σ : Selector) (voxels : List Voxel) :
    ℕ → Finset ℕ → Finset ℕ → Finset ℕ → Finset ℕ
  | 0, _, neighbor_indices, _ => neighbor_indices
  | fuel + 1, queue_indices, neighbor_indices, searchable_indices =>
    if h : queue_indices.Nonempty then
      let current_index := σ.pick queue_indices h
      let found := bfs_found voxels current_index searchable_indices
      bfs_loop σ voxels fuel
        ((queue_indices.erase current_index) ∪ found)
        (neighbor_indices ∪ found)
        (searchable_indices \ (neighbor_indices ∪ found))
    else
      neighbor_indices

/-- Embedding of `breadth_first_search` (`pore/voxel.py` lines 247-267): pop
a start index from (a copy of) the searchable set, then grow the neighbour
set by the loop.  The source raises `KeyError` when the searchable set is
empty; no caller reaches that case and the embedding returns the empty set
there. -/
def breadth_first_search (σ : Selector) (voxels : List Voxel)
    (searchable_indices : Finset ℕ) : Finset ℕ :=
  if h : searchable_indices.Nonempty then
    let start_index := σ.pick searchable_indices h
    bfs_loop σ voxels searchable_indices.card {start_index} {start_index}
      (searchable_indices.erase start_index)
  else
    ∅

/-- Embedding of the first loop of `is_pore` (`pore/voxel.py` lines 281-287):
the putative pore indices whose voxel touches some exposed voxel. -/
def direct_surface_indices (putative_pore_indices : Finset ℕ)
    (buried_voxels exposed_voxels : List Voxel) : Finset ℕ :=
  putative_pore_indices.filter (fun i =>
    ∃ j ∈ Finset.range exposed_voxels.length,
      is_neighbor_voxel (get_single_voxel buried_voxels i)
        (get_single_voxel exposed_voxels j) = true)

/-- Embedding of the second loop of `is_pore` (`pore/voxel.py` lines
291-299): the remaining putative pore indices whose voxel touches some
direct surface voxel. -/
def neighbor_surface_indices (putative_pore_indices : Finset ℕ)
    (buried_voxels exposed_voxels : List Voxel) : Finset ℕ :=
  (putative_pore_indices \ direct_surface_indices putative_pore_indices buried_voxels exposed_voxels).filter
    (fun p => ∃ s ∈ direct_surface_indices putative_pore_indices buried_voxels exposed_voxels,
      is_neighbor_voxel (get_single_voxel buried_voxels s)
        (get_single_voxel buried_voxels p) = true)

/-- The extended surface set of a putative pore: the direct surface indices
together with their 6-neighbours inside the component (`surface_indices` in
`pore/voxel.py` line 302). -/
def surface_indices (putative_pore_indices : Finset ℕ)
    (buried_voxels exposed_voxels : List Voxel) : Finset ℕ :=
  direct_surface_indices putative_pore_indices buried_voxels exposed_voxels
    ∪ neighbor_surface_indices putative_pore_indices buried_voxels exposed_voxels

/-- Embedding of `is_pore` (`pore/voxel.py` lines 270-311): when the extended
surface set is empty the function returns `False`; otherwise it returns
`False` exactly when one breadth-first search agglomerates the whole extended
surface set, and `True` otherwise. -/
def is_pore (σ : Selector) (putative_pore_indices : Finset ℕ)
    (buried_voxels exposed_voxels : List Voxel) : Bool :=
  let surface := surface_indices putative_pore_indices buried_voxels exposed_voxels
  if surface.card = 0 then
    false
  else if (breadth_first_search σ buried_voxels surface).card = surface.card then
    false
  else
    true

/-- The voxel group built for a freshly agglomerated component by
`get_pores_and_cavities` (`pore/voxel.py` lines 343-355 and 358-370): the
component's voxels (CPython iterates a set of small nonnegative integers in
ascending order, modelled by filtering the ascending position range; the
component's indices always lie in that range), their linear indices, and the
derived count and volume. -/
def component_group (S : ℚ) (dims : Voxel) (buried_voxels : List Voxel)
    (voxel_type : String) (putative_pore_indices : Finset ℕ) : VoxelGroup :=
  let group_voxels := ((List.range buried_voxels.length).filter
    (fun i => decide (i ∈ putative_pore_indices))).map
      (fun i => get_single_voxel buried_voxels i)
  let group_indices := compute_voxel_indices group_voxels dims
  ⟨group_voxels, group_indices, group_indices.card, voxel_type,
    (group_indices.card : ℚ) * VOXEL_VOLUME S⟩

/-- Embedding of the `while` loop of `get_pores_and_cavities`
(`pore/voxel.py` lines 332-371).  One fuel unit is spent per iteration and
`none` is returned on exhaustion; the fuel passed by
`get_pores_and_cavities` is shown sufficient below.  Each iteration runs a
breadth-first search over the not yet agglomerated indices and appends the
resulting component to the pores when `is_pore` holds and to the cavities
otherwise; ids are list positions. -/
def gpc_loop (σ : Selector) (S : ℚ) (dims : Voxel)
    (buried_voxels exposed_voxels : List Voxel) (buried_indices : Finset ℕ) :
    ℕ → Finset ℕ → List VoxelGroup → List VoxelGroup →
    Option (List VoxelGroup × List VoxelGroup)
  | fuel, agglomerated_indices, pores, cavities =>
    if agglomerated_indices.card < buried_indices.card then
      match fuel with
      | 0 => none
      | fuel + 1 =>
        let remaining_indices := buried_indices \ agglomerated_indices
        let putative_pore_indices := breadth_first_search σ buried_voxels remaining_indices
        if is_pore σ putative_pore_indices buried_voxels exposed_voxels then
          gpc_loop σ S dims buried_voxels exposed_voxels buried_indices fuel
            (agglomerated_indices ∪ putative_pore_indices)
            (pores ++ [component_group S dims buried_voxels "pore" putative_pore_indices])
            cavities
        else
          gpc_loop σ S dims buried_voxels exposed_voxels buried_indices fuel
            (agglomerated_indices ∪ putative_pore_indices)
            pores
            (cavities ++ [component_group S dims buried_voxels "cavity" putative_pore_indices])
    else
      some (pores, cavities)

/-- Embedding of `get_pores_and_cavities` (`pore/voxel.py` lines 314-373):
agglomerate the buried voxels (indexed by their positions in the buried
coordinate arrays) into components and classify each as a pore or a cavity.
The returned dictionaries keyed by consecutive ids are modelled as lists in
id order. -/
def get_pores_and_cavities (σ : Selector) (S : ℚ)
    (buried_voxels exposed_voxels : VoxelGroup) (voxel_grid_dimensions : Voxel) :
    Option (List VoxelGroup × List VoxelGroup) :=
  gpc_loop σ S voxel_grid_dimensions buried_voxels.voxels exposed_voxels.voxels
    (Finset.range buried_voxels.voxels.length)
    buried_voxels.voxels.length ∅ [] []

/-- Modelled from the spec: the error kinds of section 7 (`pore/types.py`
and the validation layer are not under `src/`). -/
inductive CoreError
  | inputError
  | gridTooLarge
  | internal
deriving DecidableEq

/-- Modelled from the spec: the aggregate record of section 3 restricted to
the categories the classifier populates (spec section 9: hubs and pockets
are reserved slots with zero counts; `pore/types.py` is not under `src/`). -/
structure AnnotationRecord where
  num_pores : ℕ
  num_cavities : ℕ
  total_pore_volume : ℚ
  total_cavity_volume : ℚ
  largest_pore_volume : ℚ
  largest_cavity_volume : ℚ
deriving DecidableEq

/-- Sum of the volumes of a list of groups (`get_volume_summary(•, "total")`
of the external `utils` module, per spec section 4.8). -/
def total_volume (groups : List VoxelGroup) : ℚ :=
  (groups.map (fun g => g.volume)).sum

/-- Largest volume of a list of groups, 0 when empty
(`get_volume_summary(•, "max")`, per spec section 4.8). -/
def largest_volume (groups : List VoxelGroup) : ℚ :=
  (groups.map (fun g => g.volume)).foldr max 0

/-- Modelled from the spec: the core entry point `annotate_pdb_structure`
(`pore/pore.py` lines 16-41) with external collaborators replaced per the
spec.  Section 7 requires an `InputError` on an empty point cloud; the
caller pre-aligns the structure, so atom centres are modelled as voxel-grid
points, the grid spans their bounding box, and the occupancy predicate marks
the cells holding a point.  The voxel pipeline is the embedding above; a
`none` from the classifier would be an `Internal` invariant violation
(section 7), which the termination theorem rules out. -/
def annotate_grid_dims (points : List Voxel) : Voxel :=
  (((points.map (fun p => p.1)).foldr max 0) + 1,
   ((points.map (fun p => p.2.1)).foldr max 0) + 1,
   ((points.map (fun p => p.2.2)).foldr max 0) + 1)

/-- Modelled from the spec: the voxel pipeline of `annotate_pdb_structure`
(`pore/pore.py` lines 25-41) from the occupancy grid to the classifier. -/
def annotate_pipeline (σ : Selector) (S : ℚ) (points : List Voxel) :
    Option (List VoxelGroup × List VoxelGroup) :=
  let dims := annotate_grid_dims points
  let ps := get_protein_and_solvent_voxels S (fun v => points.contains v) dims
  let eb := get_exposed_and_buried_voxels S ps.2 ps.1 dims
  get_pores_and_cavities σ S eb.2 eb.1 dims

def annotate_structure (σ : Selector) (S : ℚ) (points : List Voxel) :
    Except CoreError AnnotationRecord :=
  if points.isEmpty then
    .error .inputError
  else
    match annotate_pipeline σ S points with
    | none => .error .internal
    | some pc =>
        .ok ⟨pc.1.length, pc.2.length, total_volume pc.1, total_volume pc.2,
          largest_volume pc.1, largest_volume pc.2⟩

/-- A heap of Python set objects, used to model aliasing and in-place
mutation for the frame property of `breadth_first_search`: each object id
holds a set of indices. -/
def SetHeap := ℕ → Finset ℕ

/-- Overwrite one heap cell. -/
def heap_write (h : SetHeap) (cell : ℕ) (v : Finset ℕ) : SetHeap :=
  fun a => if a = cell then v else h a

/-- The loop of `breadth_first_search` with the searchable set held in a
heap cell: every iteration reads the cell and writes the shrunken set back
to the same cell, mirroring `searchable_indices -= neighbor_indices`
(`pore/voxel.py` line 265). -/
def bfs_loop_heap (σ : Selector) (voxels : List Voxel) :
    ℕ → Finset ℕ → Finset ℕ → SetHeap → ℕ → SetHeap × Finset ℕ
  | 0, _, neighbor_indices, h, _ => (h, neighbor_indices)
  | fuel + 1, queue_indices, neighbor_indices, h, cell =>
    if hq : queue_indices.Nonempty then
      let current_index := σ.pick queue_indices hq
      let found := bfs_found voxels current_index (h cell)
      bfs_loop_heap σ voxels fuel
        ((queue_indices.erase current_index) ∪ found)
        (neighbor_indices ∪ found)
        (heap_write h cell ((h cell) \ (neighbor_indices ∪ found)))
        cell
    else
      (h, neighbor_indices)

/-- Heap-model embedding of `breadth_first_search` (`pore/voxel.py` lines
247-267).  The caller's argument lives at `arg`; the first statement of the
body, `searchable_indices = deepcopy(searchable_indices)`, allocates a fresh
object `fresh` holding a copy, and every subsequent mutation (the `pop` of
the start index and the loop's difference assignments) targets `fresh`. -/
def breadth_first_search_heap (σ : Selector) (voxels : List Voxel)
    (h : SetHeap) (arg fresh : ℕ) : SetHeap × Finset ℕ :=
  let h1 := heap_write h fresh (h arg)
  if hs : (h1 fresh).Nonempty then
    let start_index := σ.pick (h1 fresh) hs
    let h2 := heap_write h1 fresh ((h1 fresh).erase start_index)
    bfs_loop_heap σ voxels (h1 fresh).card {start_index} {start_index} h2 fresh
  else
    (h1, ∅)

/-- Specification-side 6-adjacency between two index positions of a voxel
array, restricted to a set of positions: both endpoints lie in the set and
the voxels at the two positions are ordinal neighbours. -/
def voxel_step (voxels : List Voxel) (s : Finset ℕ) (a b : ℕ) : Prop :=
  a ∈ s ∧ b ∈ s ∧
    is_neighbor_voxel (get_single_voxel voxels a) (get_single_voxel voxels b) = true

/-- Specification-side reachability inside a set of positions: the
reflexive-transitive closure of restricted 6-adjacency. -/
def reach_in (voxels : List Voxel) (s : Finset ℕ) (a b : ℕ) : Prop :=
  Relation.ReflTransGen (voxel_step voxels s) a b

/-- Specification-side connectivity of a set of positions: every two members
are joined by a 6-connected path inside the set.  A nonempty set is
connected exactly when component labelling yields one component. -/
def connected_in (voxels : List Voxel) (s : Finset ℕ) : Prop :=
  ∀ a ∈ s, ∀ b ∈ s, reach_in voxels s a b

/-- The set `K` is one maximal 6-connected component of the position set `W`
(with adjacency read inside the ambient set `I`): `K` consists of exactly
the members of `W` reachable inside `I` from some witness position. -/
def is_component_of (voxels : List Voxel) (I W K : Finset ℕ) : Prop :=
  ∃ x, x ∈ K ∧ ∀ y, (y ∈ K ↔ y ∈ W ∧ reach_in voxels I x y)

/-- The set `W` is saturated inside the ambient set `I`: it is closed under
reachability within `I`, hence a union of components of `I`. -/
def saturated_in (voxels : List Voxel) (I W : Finset ℕ) : Prop :=
  W ⊆ I ∧ ∀ a ∈ W, ∀ b, reach_in voxels I a b → b ∈ W

/-- Canonical pore verdict of a component, phrased with the canonical
selector; by `is_pore_indep` it agrees with every selector's verdict. -/
def pore_flag (bv ev : List Voxel) (K : Finset ℕ) : Bool :=
  is_pore minSelector K bv ev

/-- Union of the voxel sets of a list of groups. -/
def groups_voxel_union (groups : List VoxelGroup) : Finset Voxel :=
  groups.foldr (fun g acc => g.voxels.toFinset ∪ acc) ∅

/-- Specification-side projection column `Xcol[j][k]`: the first coordinates
of the protein voxels whose last two coordinates are `(j, k)`. -/
def spec_x_column (protein : List Voxel) (j k : ℕ) : List ℕ :=
  (protein.filter (fun v => decide (v.2.1 = j ∧ v.2.2 = k))).map (fun v => v.1)

/-- Specification-side projection column `Ycol[i][k]`. -/
def spec_y_column (protein : List Voxel) (i k : ℕ) : List ℕ :=
  (protein.filter (fun v => decide (v.1 = i ∧ v.2.2 = k))).map (fun v => v.2.1)

/-- Specification-side projection column `Zcol[i][j]`. -/
def spec_z_column (protein : List Voxel) (i j : ℕ) : List ℕ :=
  (protein.filter (fun v => decide (v.1 = i ∧ v.2.1 = j))).map (fun v => v.2.2)

/-- One growth step of the search loop: the target lies in the still
searchable set and is adjacent to the source. -/
def grow_step (voxels : List Voxel) (s : Finset ℕ) (a b : ℕ) : Prop :=
  b ∈ s ∧ is_neighbor_voxel (get_single_voxel voxels a) (get_single_voxel voxels b) = true

theorem is_neighbor_voxel_symm (v w : Voxel) :
    is_neighbor_voxel v w = is_neighbor_voxel w v := by
  simp only [is_neighbor_voxel, decide_eq_decide]
  omega

theorem voxel_step_symm (voxels : List Voxel) (s : Finset ℕ) {a b : ℕ}
    (h : voxel_step voxels s a b) : voxel_step voxels s b a := by
  obtain ⟨ha, hb, hn⟩ := h
  exact ⟨hb, ha, by rw [is_neighbor_voxel_symm]; exact hn⟩

theorem reach_in_symm (voxels : List Voxel) (s : Finset ℕ) {a b : ℕ}
    (h : reach_in voxels s a b) : reach_in voxels s b a := by
  induction h with
  | refl => exact Relation.ReflTransGen.refl
  | tail _ hstep ih =>
      exact Relation.ReflTransGen.trans
        (Relation.ReflTransGen.single (voxel_step_symm voxels s hstep)) ih

theorem grow_step_mono (voxels : List Voxel) {s t : Finset ℕ} (hst : s ⊆ t)
    {a b : ℕ} (h : grow_step voxels s a b) : grow_step voxels t a b :=
  ⟨hst h.1, h.2⟩

theorem grow_reach_mono (voxels : List Voxel) {s t : Finset ℕ} (hst : s ⊆ t)
    {a b : ℕ} (h : Relation.ReflTransGen (grow_step voxels s) a b) :
    Relation.ReflTransGen (grow_step voxels t) a b :=
  Relation.ReflTransGen.mono (fun _ _ hab => grow_step_mono voxels hst hab) h

theorem grow_reach_end_mem (voxels : List Voxel) {s : Finset ℕ} {a b : ℕ}
    (h : Relation.ReflTransGen (grow_step voxels s) a b) : b = a ∨ b ∈ s := by
  induction h with
  | refl => exact Or.inl rfl
  | tail _ hstep _ => exact Or.inr hstep.1

/-- Path surgery: a growth path that ends outside a removed part either
starts where it is or can be restarted at its last visit to the removed
part, staying entirely outside it afterwards. -/
theorem grow_reach_avoid (voxels : List Voxel) {s F : Finset ℕ} {q y : ℕ}
    (h : Relation.ReflTransGen (grow_step voxels s) q y) (hyF : y ∉ F) :
    ∃ r, (r = q ∨ r ∈ F) ∧ Relation.ReflTransGen (grow_step voxels (s \ F)) r y := by
  induction h with
  | refl => exact ⟨q, Or.inl rfl, Relation.ReflTransGen.refl⟩
  | @tail z y hqz hstep ih =>
      by_cases hzF : z ∈ F
      · exact ⟨z, Or.inr hzF,
          Relation.ReflTransGen.single ⟨Finset.mem_sdiff.mpr ⟨hstep.1, hyF⟩, hstep.2⟩⟩
      · obtain ⟨r, hr, hp⟩ := ih hzF
        exact ⟨r, hr, hp.tail ⟨Finset.mem_sdiff.mpr ⟨hstep.1, hyF⟩, hstep.2⟩⟩

/-- A growth path inside a set that excludes all neighbours of its start is
trivial. -/
theorem grow_reach_of_no_exit (voxels : List Voxel) {t : Finset ℕ} {c y : ℕ}
    (hnone : ∀ w ∈ t, is_neighbor_voxel (get_single_voxel voxels c)
      (get_single_voxel voxels w) = true → False)
    (h : Relation.ReflTransGen (grow_step voxels t) c y) : y = c := by
  rcases h.cases_head with heq | ⟨w, hw, _⟩
  · exact heq.symm
  · exact absurd hw.2 (fun hn => hnone w hw.1 hn)

theorem bfs_found_subset (voxels : List Voxel) (current : ℕ) (s : Finset ℕ) :
    bfs_found voxels current s ⊆ s :=
  Finset.filter_subset _ s

theorem bfs_found_mem (voxels : List Voxel) (current : ℕ) (s : Finset ℕ) (y : ℕ) :
    y ∈ bfs_found voxels current s ↔ y ∈ s ∧
      is_neighbor_voxel (get_single_voxel voxels current) (get_single_voxel voxels y) = true := by
  simp [bfs_found]

/-- Invariant characterisation of the search loop: with enough fuel, a queue
contained in the visited set, and a visited set disjoint from the searchable
set, the loop returns the visited set together with every searchable index
reachable from the queue by a growth path through the searchable set. -/
theorem bfs_loop_spec (σ : Selector) (voxels : List Voxel) :
    ∀ (fuel : ℕ) (Q N S : Finset ℕ),
      S.card + Q.card ≤ fuel → Q ⊆ N → (∀ x ∈ N, x ∉ S) →
      ∀ y, y ∈ bfs_loop σ voxels fuel Q N S ↔
        (y ∈ N ∨ (y ∈ S ∧ ∃ q ∈ Q,
          Relation.ReflTransGen (grow_step voxels S) q y)) := by
  intro fuel
  induction fuel with
  | zero =>
      intro Q N S hfuel _ _ y
      have hS : S = ∅ := Finset.card_eq_zero.mp (by omega)
      subst hS
      simp [bfs_loop]
  | succ fuel ih =>
      intro Q N S hfuel hQN hNS y
      by_cases h : Q.Nonempty
      · have hunfold : bfs_loop σ voxels (fuel + 1) Q N S =
            bfs_loop σ voxels fuel
              ((Q.erase (σ.pick Q h)) ∪ bfs_found voxels (σ.pick Q h) S)
              (N ∪ bfs_found voxels (σ.pick Q h) S)
              (S \ (N ∪ bfs_found voxels (σ.pick Q h) S)) := by
          simp only [bfs_loop, dif_pos h]
        set c := σ.pick Q h with hc
        have hcQ : c ∈ Q := σ.mem_pick Q h
        set F := bfs_found voxels c S with hF
        have hFS : F ⊆ S := bfs_found_subset voxels c S
        have hsdiff : S \ (N ∪ F) = S \ F := by
          ext x
          simp only [Finset.mem_sdiff, Finset.mem_union]
          constructor
          · rintro ⟨hx, hnx⟩; exact ⟨hx, fun hxF => hnx (Or.inr hxF)⟩
          · rintro ⟨hx, hnx⟩
            exact ⟨hx, fun hmem => hmem.elim (fun hxN => hNS x hxN hx) hnx⟩
        rw [hunfold, hsdiff]
        have hcard : (S \ F).card + ((Q.erase c) ∪ F).card ≤ fuel := by
          have h1 : (S \ F).card = S.card - F.card := Finset.card_sdiff hFS
          have h2 : ((Q.erase c) ∪ F).card ≤ (Q.erase c).card + F.card :=
            Finset.card_union_le _ _
          have h3 : (Q.erase c).card = Q.card - 1 := Finset.card_erase_of_mem hcQ
          have h4 : F.card ≤ S.card := Finset.card_le_card hFS
          have h5 : 1 ≤ Q.card := Finset.card_pos.mpr ⟨c, hcQ⟩
          omega
        have hQN' : (Q.erase c) ∪ F ⊆ N ∪ F :=
          Finset.union_subset_union ((Finset.erase_subset c Q).trans hQN)
            (Finset.Subset.refl F)
        have hNS' : ∀ x ∈ N ∪ F, x ∉ S \ F := by
          intro x hx hxS
          rcases Finset.mem_union.mp hx with hxN | hxF
          · exact hNS x hxN (Finset.mem_sdiff.mp hxS).1
          · exact (Finset.mem_sdiff.mp hxS).2 hxF
        rw [ih _ _ _ hcard hQN' hNS' y]
        constructor
        · rintro (hyNF | ⟨hySF, q, hq, hpath⟩)
          · rcases Finset.mem_union.mp hyNF with hyN | hyF
            · exact Or.inl hyN
            · have hmem := (bfs_found_mem voxels c S y).mp hyF
              exact Or.inr ⟨hmem.1, c, hcQ,
                Relation.ReflTransGen.single ⟨hmem.1, hmem.2⟩⟩
          · have hyS : y ∈ S := (Finset.mem_sdiff.mp hySF).1
            rcases Finset.mem_union.mp hq with hqe | hqF
            · exact Or.inr ⟨hyS, q, Finset.mem_of_mem_erase hqe,
                grow_reach_mono voxels (Finset.sdiff_subset) hpath⟩
            · have hmem := (bfs_found_mem voxels c S q).mp hqF
              exact Or.inr ⟨hyS, c, hcQ,
                Relation.ReflTransGen.head ⟨hmem.1, hmem.2⟩
                  (grow_reach_mono voxels (Finset.sdiff_subset) hpath)⟩
        · rintro (hyN | ⟨hyS, q, hqQ, hpath⟩)
          · exact Or.inl (Finset.mem_union_left F hyN)
          · by_cases hyF : y ∈ F
            · exact Or.inl (Finset.mem_union_right N hyF)
            · obtain ⟨r, hr, hp⟩ := grow_reach_avoid voxels hpath hyF
              rcases hr with hrq | hrF
              · by_cases hrc : r = c
                · exfalso
                  have hyr : y = r := by
                    refine grow_reach_of_no_exit voxels ?_ hp
                    intro w hw hn
                    refine (Finset.mem_sdiff.mp hw).2 ?_
                    rw [hrc] at hn
                    exact (bfs_found_mem voxels c S w).mpr
                      ⟨(Finset.mem_sdiff.mp hw).1, hn⟩
                  rw [hyr, hrq] at hyS
                  exact hNS q (hQN hqQ) hyS
                · refine Or.inr ⟨Finset.mem_sdiff.mpr ⟨hyS, hyF⟩, r,
                    Finset.mem_union_left F (Finset.mem_erase.mpr
                      ⟨hrc, by rw [hrq]; exact hqQ⟩), hp⟩
              · exact Or.inr ⟨Finset.mem_sdiff.mpr ⟨hyS, hyF⟩, r,
                  Finset.mem_union_right _ hrF, hp⟩
      · have : ¬ Q.Nonempty := h
        have hQ : Q = ∅ := Finset.not_nonempty_iff_eq_empty.mp h
        subst hQ
        simp [bfs_loop, h]

theorem grow_reach_to_voxel_reach (voxels : List Voxel) {S : Finset ℕ} {s y : ℕ}
    (hs : s ∈ S) (h : Relation.ReflTransGen (grow_step voxels (S.erase s)) s y) :
    reach_in voxels S s y := by
  induction h with
  | refl => exact Relation.ReflTransGen.refl
  | @tail z y hsz hstep ih =>
      have hzS : z ∈ S := by
        rcases grow_reach_end_mem voxels hsz with hz | hz
        · rw [hz]; exact hs
        · exact Finset.mem_of_mem_erase hz
      exact ih.tail ⟨hzS, Finset.mem_of_mem_erase hstep.1, hstep.2⟩

theorem voxel_reach_to_grow_reach (voxels : List Voxel) {S : Finset ℕ} {s y : ℕ}
    (h : reach_in voxels S s y) :
    y = s ∨ Relation.ReflTransGen (grow_step voxels (S.erase s)) s y := by
  induction h with
  | refl => exact Or.inl rfl
  | @tail z y hsz hstep ih =>
      by_cases hys : y = s
      · exact Or.inl hys
      · have hy : y ∈ S.erase s := Finset.mem_erase.mpr ⟨hys, hstep.2.1⟩
        rcases ih with hzs | hpath
        · rw [hzs] at hstep
          exact Or.inr (Relation.ReflTransGen.single ⟨hy, hstep.2.2⟩)
        · exact Or.inr (hpath.tail ⟨hy, hstep.2.2⟩)

/-- Full characterisation of `breadth_first_search` on a nonempty searchable
set: it returns exactly the members of the set reachable from the popped
start index by 6-connected paths inside the set. -/
theorem breadth_first_search_spec (σ : Selector) (voxels : List Voxel)
    (S : Finset ℕ) (h : S.Nonempty) (y : ℕ) :
    y ∈ breadth_first_search σ voxels S ↔
      y ∈ S ∧ reach_in voxels S (σ.pick S h) y := by
  have hunfold : breadth_first_search σ voxels S =
      bfs_loop σ voxels S.card {σ.pick S h} {σ.pick S h}
        (S.erase (σ.pick S h)) := by
    simp only [breadth_first_search, dif_pos h]
  set s := σ.pick S h with hsdef
  have hsS : s ∈ S := σ.mem_pick S h
  have hcard : (S.erase s).card + ({s} : Finset ℕ).card ≤ S.card := by
    have h1 : (S.erase s).card = S.card - 1 := Finset.card_erase_of_mem hsS
    have h2 : 1 ≤ S.card := Finset.card_pos.mpr ⟨s, hsS⟩
    simp only [Finset.card_singleton]
    omega
  have hQN : ({s} : Finset ℕ) ⊆ {s} := Finset.Subset.refl _
  have hNS : ∀ x ∈ ({s} : Finset ℕ), x ∉ S.erase s := by
    intro x hx
    rw [Finset.mem_singleton.mp hx]
    exact Finset.not_mem_erase s S
  rw [hunfold, bfs_loop_spec σ voxels S.card _ _ _ hcard hQN hNS y]
  constructor
  · rintro (hys | ⟨hyE, q, hq, hpath⟩)
    · rw [Finset.mem_singleton.mp hys]
      exact ⟨hsS, Relation.ReflTransGen.refl⟩
    · rw [Finset.mem_singleton.mp hq] at hpath
      exact ⟨Finset.mem_of_mem_erase hyE, grow_reach_to_voxel_reach voxels hsS hpath⟩
  · rintro ⟨hyS, hpath⟩
    by_cases hys : y = s
    · exact Or.inl (Finset.mem_singleton.mpr hys)
    · rcases voxel_reach_to_grow_reach voxels hpath with hcontra | hp
      · exact absurd hcontra hys
      · exact Or.inr ⟨Finset.mem_erase.mpr ⟨hys, hyS⟩, s, Finset.mem_singleton_self s, hp⟩

theorem breadth_first_search_subset (σ : Selector) (voxels : List Voxel)
    (S : Finset ℕ) : breadth_first_search σ voxels S ⊆ S := by
  by_cases h : S.Nonempty
  · intro y hy
    exact ((breadth_first_search_spec σ voxels S h y).mp hy).1
  · rw [Finset.not_nonempty_iff_eq_empty.mp h]
    simp only [breadth_first_search]
    intro y hy
    simp at hy

theorem pick_mem_breadth_first_search (σ : Selector) (voxels : List Voxel)
    (S : Finset ℕ) (h : S.Nonempty) :
    σ.pick S h ∈ breadth_first_search σ voxels S :=
  (breadth_first_search_spec σ voxels S h _).mpr
    ⟨σ.mem_pick S h, Relation.ReflTransGen.refl⟩

theorem breadth_first_search_nonempty (σ : Selector) (voxels : List Voxel)
    (S : Finset ℕ) (h : S.Nonempty) :
    (breadth_first_search σ voxels S).Nonempty :=
  ⟨σ.pick S h, pick_mem_breadth_first_search σ voxels S h⟩

/-- The search covers the whole searchable set exactly when the set is
6-connected. -/
theorem breadth_first_search_eq_iff_connected (σ : Selector) (voxels : List Voxel)
    (S : Finset ℕ) (h : S.Nonempty) :
    breadth_first_search σ voxels S = S ↔ connected_in voxels S := by
  constructor
  · intro heq a ha b hb
    have ha2 : a ∈ breadth_first_search σ voxels S := by rw [heq]; exact ha
    have hb2 : b ∈ breadth_first_search σ voxels S := by rw [heq]; exact hb
    have hra : reach_in voxels S (σ.pick S h) a :=
      ((breadth_first_search_spec σ voxels S h a).mp ha2).2
    have hrb : reach_in voxels S (σ.pick S h) b :=
      ((breadth_first_search_spec σ voxels S h b).mp hb2).2
    exact (reach_in_symm voxels S hra).trans hrb
  · intro hconn
    apply Finset.Subset.antisymm (breadth_first_search_subset σ voxels S)
    intro y hy
    exact (breadth_first_search_spec σ voxels S h y).mpr
      ⟨hy, hconn _ (σ.mem_pick S h) y hy⟩

theorem breadth_first_search_card_iff_connected (σ : Selector) (voxels : List Voxel)
    (S : Finset ℕ) (h : S.Nonempty) :
    (breadth_first_search σ voxels S).card = S.card ↔ connected_in voxels S := by
  rw [← breadth_first_search_eq_iff_connected σ voxels S h]
  constructor
  · intro hcard
    exact Finset.eq_of_subset_of_card_le (breadth_first_search_subset σ voxels S)
      (le_of_eq hcard.symm)
  · intro heq
    rw [heq]

theorem is_pore_of_empty_surface (σ : Selector) (putative : Finset ℕ)
    (bv ev : List Voxel) (h : surface_indices putative bv ev = ∅) :
    is_pore σ putative bv ev = false := by
  simp only [is_pore, h, Finset.card_empty]
  rfl

theorem is_pore_eq_false_iff (σ : Selector) (putative : Finset ℕ)
    (bv ev : List Voxel) (h : (surface_indices putative bv ev).Nonempty) :
    is_pore σ putative bv ev = false ↔
      connected_in bv (surface_indices putative bv ev) := by
  have hcard : (surface_indices putative bv ev).card ≠ 0 :=
    Nat.pos_iff_ne_zero.mp (Finset.card_pos.mpr h)
  simp only [is_pore, if_neg hcard]
  by_cases hbfs : (breadth_first_search σ bv (surface_indices putative bv ev)).card =
      (surface_indices putative bv ev).card
  · simp only [if_pos hbfs, true_iff]
    exact (breadth_first_search_card_iff_connected σ bv _ h).mp hbfs
  · simp only [if_neg hbfs]
    constructor
    · intro hfalse; exact absurd hfalse (by simp)
    · intro hconn
      exact absurd ((breadth_first_search_card_iff_connected σ bv _ h).mpr hconn) hbfs

/-- The pore/cavity verdict does not depend on which elements the set pops
hand to the breadth-first searches. -/
theorem is_pore_indep (σ₁ σ₂ : Selector) (putative : Finset ℕ)
    (bv ev : List Voxel) :
    is_pore σ₁ putative bv ev = is_pore σ₂ putative bv ev := by
  by_cases h : (surface_indices putative bv ev).Nonempty
  · by_cases hconn : connected_in bv (surface_indices putative bv ev)
    · rw [(is_pore_eq_false_iff σ₁ putative bv ev h).mpr hconn,
        (is_pore_eq_false_iff σ₂ putative bv ev h).mpr hconn]
    · have h1 : is_pore σ₁ putative bv ev ≠ false :=
        fun hf => hconn ((is_pore_eq_false_iff σ₁ putative bv ev h).mp hf)
      have h2 : is_pore σ₂ putative bv ev ≠ false :=
        fun hf => hconn ((is_pore_eq_false_iff σ₂ putative bv ev h).mp hf)
      rw [eq_true_of_ne_false h1, eq_true_of_ne_false h2]
  · have heq : surface_indices putative bv ev = ∅ :=
      Finset.not_nonempty_iff_eq_empty.mp h
    rw [is_pore_of_empty_surface σ₁ putative bv ev heq,
      is_pore_of_empty_surface σ₂ putative bv ev heq]

theorem reach_in_end_mem (voxels : List Voxel) {s : Finset ℕ} {a b : ℕ}
    (h : reach_in voxels s a b) : b = a ∨ b ∈ s := by
  induction h with
  | refl => exact Or.inl rfl
  | tail _ hstep _ => exact Or.inr hstep.2.1

theorem saturated_compl (voxels : List Voxel) (I W : Finset ℕ)
    (h : saturated_in voxels I W) : saturated_in voxels I (I \ W) := by
  refine ⟨Finset.sdiff_subset, ?_⟩
  intro a ha b hab
  obtain ⟨haI, haW⟩ := Finset.mem_sdiff.mp ha
  have hbI : b ∈ I := by
    rcases reach_in_end_mem voxels hab with hba | hbI
    · rw [hba]; exact haI
    · exact hbI
  refine Finset.mem_sdiff.mpr ⟨hbI, fun hbW => haW ?_⟩
  exact h.2 b hbW a (reach_in_symm voxels I hab)

theorem saturated_reach_lift (voxels : List Voxel) {I W : Finset ℕ}
    (h : saturated_in voxels I W) {x y : ℕ} (hx : x ∈ W)
    (hxy : reach_in voxels I x y) : reach_in voxels W x y := by
  induction hxy with
  | refl => exact Relation.ReflTransGen.refl
  | @tail z y hxz hstep ih =>
      have hzW : z ∈ W := h.2 x hx z hxz
      have hyW : y ∈ W := h.2 x hx y (hxz.tail hstep)
      exact ih.tail ⟨hzW, hyW, hstep.2.2⟩

theorem reach_in_mono (voxels : List Voxel) {s t : Finset ℕ} (hst : s ⊆ t)
    {a b : ℕ} (h : reach_in voxels s a b) : reach_in voxels t a b :=
  Relation.ReflTransGen.mono
    (fun _ _ hab => ⟨hst hab.1, hst hab.2.1, hab.2.2⟩) h

theorem is_component_subset (voxels : List Voxel) {I W K : Finset ℕ}
    (h : is_component_of voxels I W K) : K ⊆ W := by
  obtain ⟨x, _, hext⟩ := h
  intro y hy
  exact ((hext y).mp hy).1

theorem is_component_nonempty (voxels : List Voxel) {I W K : Finset ℕ}
    (h : is_component_of voxels I W K) : K.Nonempty := by
  obtain ⟨x, hx, _⟩ := h
  exact ⟨x, hx⟩

theorem component_eq_of_mem (voxels : List Voxel) {I W K K2 : Finset ℕ}
    (h : is_component_of voxels I W K) (h2 : is_component_of voxels I W K2)
    {z : ℕ} (hz : z ∈ K) (hz2 : z ∈ K2) : K = K2 := by
  obtain ⟨x, hx, hext⟩ := h
  obtain ⟨x2, hx2, hext2⟩ := h2
  have hxz : reach_in voxels I x z := ((hext z).mp hz).2
  have hx2z : reach_in voxels I x2 z := ((hext2 z).mp hz2).2
  ext y
  rw [hext y, hext2 y]
  constructor
  · rintro ⟨hyW, hxy⟩
    exact ⟨hyW, hx2z.trans ((reach_in_symm voxels I hxz).trans hxy)⟩
  · rintro ⟨hyW, hx2y⟩
    exact ⟨hyW, hxz.trans ((reach_in_symm voxels I hx2z).trans hx2y)⟩

/-- Removing one component from a saturated set leaves exactly the other
components. -/
theorem component_remove (voxels : List Voxel) {I W K0 : Finset ℕ}
    (hK0 : is_component_of voxels I W K0)
    (K : Finset ℕ) :
    is_component_of voxels I (W \ K0) K ↔
      (is_component_of voxels I W K ∧ K ≠ K0) := by
  obtain ⟨x0, hx0, hext0⟩ := hK0
  constructor
  · rintro ⟨x, hx, hext⟩
    have hxWK : x ∈ W \ K0 := ((hext x).mp hx).1
    obtain ⟨hxW, hxK0⟩ := Finset.mem_sdiff.mp hxWK
    have hcomp : is_component_of voxels I W K := by
      refine ⟨x, hx, fun y => ?_⟩
      rw [hext y]
      constructor
      · rintro ⟨hyWK, hxy⟩
        exact ⟨(Finset.mem_sdiff.mp hyWK).1, hxy⟩
      · rintro ⟨hyW, hxy⟩
        refine ⟨Finset.mem_sdiff.mpr ⟨hyW, fun hyK0 => hxK0 ?_⟩, hxy⟩
        have hx0y : reach_in voxels I x0 y := ((hext0 y).mp hyK0).2
        exact (hext0 x).mpr ⟨hxW, hx0y.trans (reach_in_symm voxels I hxy)⟩
    refine ⟨hcomp, fun heq => hxK0 ?_⟩
    rw [← heq]
    exact hx
  · rintro ⟨⟨x, hx, hext⟩, hne⟩
    have hdisj : ∀ z, z ∈ K → z ∉ K0 := by
      intro z hzK hzK0
      exact hne (component_eq_of_mem voxels ⟨x, hx, hext⟩ ⟨x0, hx0, hext0⟩ hzK hzK0)
    refine ⟨x, hx, fun y => ?_⟩
    rw [hext y]
    constructor
    · rintro ⟨hyW, hxy⟩
      have hyK : y ∈ K := (hext y).mpr ⟨hyW, hxy⟩
      exact ⟨Finset.mem_sdiff.mpr ⟨hyW, hdisj y hyK⟩, hxy⟩
    · rintro ⟨hyWK, hxy⟩
      exact ⟨(Finset.mem_sdiff.mp hyWK).1, hxy⟩

/-- A breadth-first search over a saturated nonempty set returns one
component of it. -/
theorem bfs_is_component (σ : Selector) (voxels : List Voxel) {I W : Finset ℕ}
    (hsat : saturated_in voxels I W) (h : W.Nonempty) :
    is_component_of voxels I W (breadth_first_search σ voxels W) := by
  refine ⟨σ.pick W h, pick_mem_breadth_first_search σ voxels W h, fun y => ?_⟩
  rw [breadth_first_search_spec σ voxels W h y]
  constructor
  · rintro ⟨hyW, hr⟩
    exact ⟨hyW, reach_in_mono voxels hsat.1 hr⟩
  · rintro ⟨hyW, hr⟩
    exact ⟨hyW, saturated_reach_lift voxels hsat (σ.mem_pick W h) hr⟩

theorem saturated_union_component (voxels : List Voxel) {I agg K : Finset ℕ}
    (hsat : saturated_in voxels I agg)
    (hK : is_component_of voxels I (I \ agg) K) :
    saturated_in voxels I (agg ∪ K) := by
  have hKsub : K ⊆ I \ agg := is_component_subset voxels hK
  have hsatR : saturated_in voxels I (I \ agg) := saturated_compl voxels I agg hsat
  constructor
  · exact Finset.union_subset hsat.1 (hKsub.trans Finset.sdiff_subset)
  · intro a ha b hab
    rcases Finset.mem_union.mp ha with haA | haK
    · exact Finset.mem_union_left K (hsat.2 a haA b hab)
    · obtain ⟨x, hx, hext⟩ := hK
      have haR : a ∈ I \ agg := hKsub haK
      have hbR : b ∈ I \ agg := hsatR.2 a haR b hab
      have hxa : reach_in voxels I x a := ((hext a).mp haK).2
      exact Finset.mem_union_right agg ((hext b).mpr ⟨hbR, hxa.trans hab⟩)

theorem gpc_loop_zero_eq (σ : Selector) (S : ℚ) (dims : Voxel)
    (bv ev : List Voxel) (I agg : Finset ℕ) (p c : List VoxelGroup) :
    gpc_loop σ S dims bv ev I 0 agg p c =
      if agg.card < I.card then none else some (p, c) := rfl

theorem gpc_loop_succ_eq (σ : Selector) (S : ℚ) (dims : Voxel)
    (bv ev : List Voxel) (I agg : Finset ℕ) (fuel : ℕ) (p c : List VoxelGroup) :
    gpc_loop σ S dims bv ev I (fuel + 1) agg p c =
      if agg.card < I.card then
        (if is_pore σ (breadth_first_search σ bv (I \ agg)) bv ev then
          gpc_loop σ S dims bv ev I fuel
            (agg ∪ breadth_first_search σ bv (I \ agg))
            (p ++ [component_group S dims bv "pore" (breadth_first_search σ bv (I \ agg))])
            c
        else
          gpc_loop σ S dims bv ev I fuel
            (agg ∪ breadth_first_search σ bv (I \ agg))
            p
            (c ++ [component_group S dims bv "cavity" (breadth_first_search σ bv (I \ agg))]))
      else some (p, c) := rfl

/-- Every iteration of the agglomeration loop strictly enlarges the
agglomerated set: the next breadth-first search returns a nonempty subset
of the remaining indices. -/
theorem gpc_step_card (σ : Selector) (bv : List Voxel) {I agg : Finset ℕ}
    (hsub : agg ⊆ I) (hlt : agg.card < I.card) :
    (agg ∪ breadth_first_search σ bv (I \ agg)) ⊆ I ∧
      agg.card < (agg ∪ breadth_first_search σ bv (I \ agg)).card := by
  have hrem : (I \ agg).Nonempty := by
    rw [← Finset.card_pos, Finset.card_sdiff hsub]
    omega
  have hput : breadth_first_search σ bv (I \ agg) ⊆ I \ agg :=
    breadth_first_search_subset σ bv (I \ agg)
  constructor
  · exact Finset.union_subset hsub (hput.trans Finset.sdiff_subset)
  · refine Finset.card_lt_card ⟨Finset.subset_union_left, ?_⟩
    intro hsup
    have hpick : σ.pick (I \ agg) hrem ∈ breadth_first_search σ bv (I \ agg) :=
      pick_mem_breadth_first_search σ bv (I \ agg) hrem
    have hmem : σ.pick (I \ agg) hrem ∈ agg :=
      hsup (Finset.mem_union_right agg hpick)
    exact (Finset.mem_sdiff.mp (σ.mem_pick (I \ agg) hrem)).2 hmem

/-- With fuel at least the number of missing indices, the agglomeration
loop completes. -/
theorem gpc_loop_terminates (σ : Selector) (S : ℚ) (dims : Voxel)
    (bv ev : List Voxel) (I : Finset ℕ) :
    ∀ (fuel : ℕ) (agg : Finset ℕ) (p c : List VoxelGroup),
      agg ⊆ I → I.card - agg.card ≤ fuel →
      ∃ pc, gpc_loop σ S dims bv ev I fuel agg p c = some pc := by
  intro fuel
  induction fuel with
  | zero =>
      intro agg p c hsub hfuel
      rw [gpc_loop_zero_eq, if_neg (by omega)]
      exact ⟨(p, c), rfl⟩
  | succ fuel ih =>
      intro agg p c hsub hfuel
      by_cases hlt : agg.card < I.card
      · obtain ⟨hsub2, hcard2⟩ := gpc_step_card σ bv hsub hlt
        have hcardI : (agg ∪ breadth_first_search σ bv (I \ agg)).card ≤ I.card :=
          Finset.card_le_card hsub2
        rw [gpc_loop_succ_eq, if_pos hlt]
        by_cases hp : is_pore σ (breadth_first_search σ bv (I \ agg)) bv ev
        · rw [if_pos hp]
          exact ih _ _ _ hsub2 (by omega)
        · rw [if_neg hp]
          exact ih _ _ _ hsub2 (by omega)
      · rw [gpc_loop_succ_eq, if_neg hlt]
        exact ⟨(p, c), rfl⟩

/-- The classifier always terminates with a result. -/
theorem get_pores_and_cavities_isSome (σ : Selector) (S : ℚ)
    (buried_voxels exposed_voxels : VoxelGroup) (dims : Voxel) :
    ∃ pc, get_pores_and_cavities σ S buried_voxels exposed_voxels dims = some pc := by
  exact gpc_loop_terminates σ S dims buried_voxels.voxels exposed_voxels.voxels
    (Finset.range buried_voxels.voxels.length) buried_voxels.voxels.length ∅ [] []
    (Finset.empty_subset _) (by simp)

theorem sdiff_union_eq (I agg put : Finset ℕ) :
    I \ (agg ∪ put) = (I \ agg) \ put := by
  ext x
  simp only [Finset.mem_sdiff, Finset.mem_union]
  tauto

theorem no_component_of_empty (bv : List Voxel) (I : Finset ℕ) (K : Finset ℕ)
    (h : is_component_of bv I ∅ K) : False := by
  obtain ⟨x, hx, hext⟩ := h
  have := ((hext x).mp hx).1
  simp at this

/-- Master characterisation of the agglomeration loop: starting from a
saturated agglomerated set, the loop appends to the accumulators exactly one
group per component of the remaining indices, pore-flagged components to the
pores and the rest to the cavities, in some duplicate-free discovery order. -/
theorem gpc_loop_classes (σ : Selector) (S : ℚ) (dims : Voxel)
    (bv ev : List Voxel) (I : Finset ℕ) :
    ∀ (fuel : ℕ) (agg : Finset ℕ) (p c P C : List VoxelGroup),
      saturated_in bv I agg →
      gpc_loop σ S dims bv ev I fuel agg p c = some (P, C) →
      ∃ Ks : List (Finset ℕ),
        Ks.Nodup ∧
        (∀ K, K ∈ Ks ↔ is_component_of bv I (I \ agg) K) ∧
        P = p ++ (Ks.filter (fun K => pore_flag bv ev K)).map
          (component_group S dims bv "pore") ∧
        C = c ++ (Ks.filter (fun K => ! pore_flag bv ev K)).map
          (component_group S dims bv "cavity") := by
  intro fuel
  induction fuel with
  | zero =>
      intro agg p c P C hsat hloop
      rw [gpc_loop_zero_eq] at hloop
      by_cases hlt : agg.card < I.card
      · rw [if_pos hlt] at hloop
        exact absurd hloop (by simp)
      · rw [if_neg hlt] at hloop
        have heq : agg = I :=
          Finset.eq_of_subset_of_card_le hsat.1 (by omega)
        obtain ⟨hP, hC⟩ := Prod.mk.injEq .. ▸ Option.some.injEq .. ▸ hloop
        refine ⟨[], List.nodup_nil, ?_, by simp [← hP], by simp [← hC]⟩
        intro K
        simp only [List.not_mem_nil, false_iff]
        intro hcomp
        rw [heq, Finset.sdiff_self] at hcomp
        exact no_component_of_empty bv I K hcomp
  | succ fuel ih =>
      intro agg p c P C hsat hloop
      rw [gpc_loop_succ_eq] at hloop
      by_cases hlt : agg.card < I.card
      · rw [if_pos hlt] at hloop
        have hrem : (I \ agg).Nonempty := by
          rw [← Finset.card_pos, Finset.card_sdiff hsat.1]
          omega
        have hsatR : saturated_in bv I (I \ agg) := saturated_compl bv I agg hsat
        set put := breadth_first_search σ bv (I \ agg) with hput
        have hcomp : is_component_of bv I (I \ agg) put :=
          bfs_is_component σ bv hsatR hrem
        have hsat2 : saturated_in bv I (agg ∪ put) :=
          saturated_union_component bv hsat hcomp
        have hrw : I \ (agg ∪ put) = (I \ agg) \ put := sdiff_union_eq I agg put
        have hmem_step : ∀ K, is_component_of bv I (I \ (agg ∪ put)) K ↔
            (is_component_of bv I (I \ agg) K ∧ K ≠ put) := by
          intro K
          rw [hrw]
          exact component_remove bv hcomp K
        have hflag : pore_flag bv ev put = is_pore σ put bv ev :=
          is_pore_indep minSelector σ put bv ev
        by_cases hp : is_pore σ put bv ev
        · rw [if_pos hp] at hloop
          obtain ⟨Ks, hnodup, hmem, hP, hC⟩ := ih _ _ _ _ _ hsat2 hloop
          have hnotin : put ∉ Ks := by
            intro hin
            obtain ⟨hc2, hne⟩ := (hmem_step put).mp ((hmem put).mp hin)
            exact hne rfl
          refine ⟨put :: Ks, List.nodup_cons.mpr ⟨hnotin, hnodup⟩, ?_, ?_, ?_⟩
          · intro K
            simp only [List.mem_cons, hmem K, hmem_step K]
            constructor
            · rintro (hKput | ⟨hcomp2, _⟩)
              · rw [hKput]; exact hcomp
              · exact hcomp2
            · intro hcomp2
              by_cases hKput : K = put
              · exact Or.inl hKput
              · exact Or.inr ⟨hcomp2, hKput⟩
          · rw [hP]
            have : pore_flag bv ev put = true := by rw [hflag]; exact hp
            simp [List.filter_cons, this, List.append_assoc]
          · rw [hC]
            have : pore_flag bv ev put = true := by rw [hflag]; exact hp
            simp [List.filter_cons, this]
        · rw [if_neg hp] at hloop
          obtain ⟨Ks, hnodup, hmem, hP, hC⟩ := ih _ _ _ _ _ hsat2 hloop
          have hnotin : put ∉ Ks := by
            intro hin
            obtain ⟨hc2, hne⟩ := (hmem_step put).mp ((hmem put).mp hin)
            exact hne rfl
          refine ⟨put :: Ks, List.nodup_cons.mpr ⟨hnotin, hnodup⟩, ?_, ?_, ?_⟩
          · intro K
            simp only [List.mem_cons, hmem K, hmem_step K]
            constructor
            · rintro (hKput | ⟨hcomp2, _⟩)
              · rw [hKput]; exact hcomp
              · exact hcomp2
            · intro hcomp2
              by_cases hKput : K = put
              · exact Or.inl hKput
              · exact Or.inr ⟨hcomp2, hKput⟩
          · rw [hP]
            have : pore_flag bv ev put = false := by
              rw [hflag]; exact Bool.of_not_eq_true hp
            simp [List.filter_cons, this]
          · rw [hC]
            have : pore_flag bv ev put = false := by
              rw [hflag]; exact Bool.of_not_eq_true hp
            simp [List.filter_cons, this, List.append_assoc]
      · rw [if_neg hlt] at hloop
        have heq : agg = I :=
          Finset.eq_of_subset_of_card_le hsat.1 (by omega)
        obtain ⟨hP, hC⟩ := Prod.mk.injEq .. ▸ Option.some.injEq .. ▸ hloop
        refine ⟨[], List.nodup_nil, ?_, by simp [← hP], by simp [← hC]⟩
        intro K
        simp only [List.not_mem_nil, false_iff]
        intro hcomp
        rw [heq, Finset.sdiff_self] at hcomp
        exact no_component_of_empty bv I K hcomp

theorem component_group_volume (S : ℚ) (dims : Voxel) (bv : List Voxel)
    (ty : String) (K : Finset ℕ) :
    (component_group S dims bv ty K).volume =
      ((component_group S dims bv ty K).num_voxels : ℚ) * VOXEL_VOLUME S := rfl

/-- Every group the agglomeration loop appends satisfies the volume formula,
provided the accumulators already do. -/
theorem gpc_loop_volumes (σ : Selector) (S : ℚ) (dims : Voxel)
    (bv ev : List Voxel) (I : Finset ℕ) :
    ∀ (fuel : ℕ) (agg : Finset ℕ) (p c P C : List VoxelGroup),
      (∀ g ∈ p ++ c, g.volume = (g.num_voxels : ℚ) * VOXEL_VOLUME S) →
      gpc_loop σ S dims bv ev I fuel agg p c = some (P, C) →
      ∀ g ∈ P ++ C, g.volume = (g.num_voxels : ℚ) * VOXEL_VOLUME S := by
  intro fuel
  induction fuel with
  | zero =>
      intro agg p c P C hacc hloop
      rw [gpc_loop_zero_eq] at hloop
      by_cases hlt : agg.card < I.card
      · rw [if_pos hlt] at hloop
        exact absurd hloop (by simp)
      · rw [if_neg hlt] at hloop
        obtain ⟨hP, hC⟩ := Prod.mk.injEq .. ▸ Option.some.injEq .. ▸ hloop
        rw [← hP, ← hC]
        exact hacc
  | succ fuel ih =>
      intro agg p c P C hacc hloop
      rw [gpc_loop_succ_eq] at hloop
      by_cases hlt : agg.card < I.card
      · rw [if_pos hlt] at hloop
        by_cases hp : is_pore σ (breadth_first_search σ bv (I \ agg)) bv ev
        · rw [if_pos hp] at hloop
          refine ih _ _ _ _ _ ?_ hloop
          intro g hg
          rcases List.mem_append.mp hg with hg1 | hg2
          · rcases List.mem_append.mp hg1 with hg3 | hg4
            · exact hacc g (List.mem_append.mpr (Or.inl hg3))
            · rw [List.mem_singleton.mp hg4]
              exact component_group_volume S dims bv "pore" _
          · exact hacc g (List.mem_append.mpr (Or.inr hg2))
        · rw [if_neg hp] at hloop
          refine ih _ _ _ _ _ ?_ hloop
          intro g hg
          rcases List.mem_append.mp hg with hg1 | hg2
          · exact hacc g (List.mem_append.mpr (Or.inl hg1))
          · rcases List.mem_append.mp hg2 with hg3 | hg4
            · exact hacc g (List.mem_append.mpr (Or.inr hg3))
            · rw [List.mem_singleton.mp hg4]
              exact component_group_volume S dims bv "cavity" _
      · rw [if_neg hlt] at hloop
        obtain ⟨hP, hC⟩ := Prod.mk.injEq .. ▸ Option.some.injEq .. ▸ hloop
        rw [← hP, ← hC]
        exact hacc

theorem saturated_empty (bv : List Voxel) (I : Finset ℕ) :
    saturated_in bv I (∅ : Finset ℕ) := by
  refine ⟨Finset.empty_subset I, ?_⟩
  intro a ha
  exact absurd ha (Finset.not_mem_empty a)

/-- The classifier's output, as a pair of multisets of groups, does not
depend on the selector: two runs produce the same pore groups and the same
cavity groups up to the order components happen to be discovered. -/
theorem gpc_result_perm (σ₁ σ₂ : Selector) (S : ℚ)
    (buried_voxels exposed_voxels : VoxelGroup) (dims : Voxel)
    (P₁ C₁ P₂ C₂ : List VoxelGroup)
    (h₁ : get_pores_and_cavities σ₁ S buried_voxels exposed_voxels dims = some (P₁, C₁))
    (h₂ : get_pores_and_cavities σ₂ S buried_voxels exposed_voxels dims = some (P₂, C₂)) :
    P₁.Perm P₂ ∧ C₁.Perm C₂ := by
  set bv := buried_voxels.voxels with hbv
  set ev := exposed_voxels.voxels with hev
  set I := Finset.range bv.length with hI
  obtain ⟨Ks₁, hnd₁, hmem₁, hP₁, hC₁⟩ :=
    gpc_loop_classes σ₁ S dims bv ev I _ _ _ _ _ _ (saturated_empty bv I) h₁
  obtain ⟨Ks₂, hnd₂, hmem₂, hP₂, hC₂⟩ :=
    gpc_loop_classes σ₂ S dims bv ev I _ _ _ _ _ _ (saturated_empty bv I) h₂
  have hperm : Ks₁.Perm Ks₂ := by
    rw [List.perm_ext_iff_of_nodup hnd₁ hnd₂]
    intro K
    rw [hmem₁ K, hmem₂ K]
  constructor
  · rw [hP₁, hP₂]
    simp only [List.nil_append]
    exact (hperm.filter _).map _
  · rw [hC₁, hC₂]
    simp only [List.nil_append]
    exact (hperm.filter _).map _

theorem mem_groups_voxel_union (groups : List VoxelGroup) (v : Voxel) :
    v ∈ groups_voxel_union groups ↔ ∃ g ∈ groups, v ∈ g.voxels.toFinset := by
  induction groups with
  | nil => simp [groups_voxel_union]
  | cons g gs ih =>
      simp only [groups_voxel_union, List.foldr_cons, Finset.mem_union, List.mem_cons]
      rw [show (List.foldr (fun g acc => g.voxels.toFinset ∪ acc) ∅ gs) =
        groups_voxel_union gs from rfl, ih]
      constructor
      · rintro (hv | ⟨g2, hg2, hv⟩)
        · exact ⟨g, Or.inl rfl, hv⟩
        · exact ⟨g2, Or.inr hg2, hv⟩
      · rintro ⟨g2, hg2 | hg2, hv⟩
        · rw [← hg2]; exact Or.inl hv
        · exact Or.inr ⟨g2, hg2, hv⟩

theorem component_group_voxels_toFinset (S : ℚ) (dims : Voxel) (bv : List Voxel)
    (ty : String) (K : Finset ℕ) (hK : K ⊆ Finset.range bv.length) :
    (component_group S dims bv ty K).voxels.toFinset =
      K.image (get_single_voxel bv) := by
  ext v
  simp only [component_group, List.mem_toFinset, List.mem_map, List.mem_filter,
    List.mem_range, Finset.mem_image, decide_eq_true_eq]
  constructor
  · rintro ⟨i, ⟨hi, hiK⟩, hv⟩
    exact ⟨i, hiK, hv⟩
  · rintro ⟨i, hiK, hv⟩
    exact ⟨i, ⟨Finset.mem_range.mp (hK hiK), hiK⟩, hv⟩

theorem get_single_voxel_inj (bv : List Voxel) (hnd : bv.Nodup) {i j : ℕ}
    (hi : i < bv.length) (hj : j < bv.length)
    (heq : get_single_voxel bv i = get_single_voxel bv j) : i = j := by
  simp only [get_single_voxel] at heq
  rw [List.getD_eq_getElem bv (0, 0, 0) hi, List.getD_eq_getElem bv (0, 0, 0) hj] at heq
  exact (List.Nodup.getElem_inj_iff hnd).mp heq

theorem list_toFinset_eq_range_image (bv : List Voxel) :
    bv.toFinset = (Finset.range bv.length).image (get_single_voxel bv) := by
  ext v
  simp only [List.mem_toFinset, Finset.mem_image, Finset.mem_range]
  constructor
  · intro hv
    obtain ⟨i, hi, hget⟩ := List.mem_iff_getElem.mp hv
    exact ⟨i, hi, by simp only [get_single_voxel]; rw [List.getD_eq_getElem bv _ hi]; exact hget⟩
  · rintro ⟨i, hi, hget⟩
    rw [← hget]
    simp only [get_single_voxel]
    rw [List.getD_eq_getElem bv _ hi]
    exact List.getElem_mem hi

theorem image_disjoint_of_disjoint (bv : List Voxel) (hnd : bv.Nodup)
    {K K2 : Finset ℕ} (hK : K ⊆ Finset.range bv.length)
    (hK2 : K2 ⊆ Finset.range bv.length) (hdisj : Disjoint K K2) :
    Disjoint (K.image (get_single_voxel bv)) (K2.image (get_single_voxel bv)) := by
  rw [Finset.disjoint_left]
  intro v hv hv2
  obtain ⟨i, hiK, hiv⟩ := Finset.mem_image.mp hv
  obtain ⟨j, hjK, hjv⟩ := Finset.mem_image.mp hv2
  have hij : i = j := get_single_voxel_inj bv hnd
    (Finset.mem_range.mp (hK hiK)) (Finset.mem_range.mp (hK2 hjK))
    (by rw [hiv, hjv])
  rw [hij] at hiK
  exact Finset.disjoint_left.mp hdisj hiK hjK

theorem exists_component (bv : List Voxel) (I : Finset ℕ) {i : ℕ} (hi : i ∈ I) :
    ∃ K, is_component_of bv I I K ∧ i ∈ K := by
  classical
  refine ⟨I.filter (fun y => reach_in bv I i y), ⟨i, ?_, ?_⟩, ?_⟩
  · exact Finset.mem_filter.mpr ⟨hi, Relation.ReflTransGen.refl⟩
  · intro y
    rw [Finset.mem_filter]
  · exact Finset.mem_filter.mpr ⟨hi, Relation.ReflTransGen.refl⟩

theorem components_disjoint (bv : List Voxel) {I W K K2 : Finset ℕ}
    (h : is_component_of bv I W K) (h2 : is_component_of bv I W K2)
    (hne : K ≠ K2) : Disjoint K K2 := by
  rw [Finset.disjoint_left]
  intro z hz hz2
  exact hne (component_eq_of_mem bv h h2 hz hz2)

/-- The groups returned by the classifier partition the buried voxels:
their voxel sets are pairwise disjoint and cover exactly the buried voxel
list (before any filtering). -/
theorem gpc_partition (σ : Selector) (S : ℚ) (bg eg : VoxelGroup) (dims : Voxel)
    (P C : List VoxelGroup) (hnd : bg.voxels.Nodup)
    (h : get_pores_and_cavities σ S bg eg dims = some (P, C)) :
    groups_voxel_union (P ++ C) = bg.voxels.toFinset ∧
      List.Pairwise (fun g g2 => Disjoint g.voxels.toFinset g2.voxels.toFinset)
        (P ++ C) := by
  set bv := bg.voxels with hbv
  set ev := eg.voxels with hev
  set I := Finset.range bv.length with hI
  obtain ⟨Ks, hndKs, hmem, hP, hC⟩ :=
    gpc_loop_classes σ S dims bv ev I _ _ _ _ _ _ (saturated_empty bv I) h
  rw [Finset.sdiff_empty] at hmem
  simp only [List.nil_append] at hP hC
  have hcomps : ∀ K ∈ Ks, is_component_of bv I I K := fun K hK => (hmem K).mp hK
  have hsub : ∀ K ∈ Ks, K ⊆ I := fun K hK => is_component_subset bv (hcomps K hK)
  have hvF : ∀ g ∈ P ++ C, ∃ K ∈ Ks, g.voxels.toFinset = K.image (get_single_voxel bv) := by
    intro g hg
    rcases List.mem_append.mp hg with hgP | hgC
    · rw [hP] at hgP
      obtain ⟨K, hKf, hgK⟩ := List.mem_map.mp hgP
      exact ⟨K, (List.mem_filter.mp hKf).1, by
        rw [← hgK]
        exact component_group_voxels_toFinset S dims bv "pore" K
          (hsub K (List.mem_filter.mp hKf).1)⟩
    · rw [hC] at hgC
      obtain ⟨K, hKf, hgK⟩ := List.mem_map.mp hgC
      exact ⟨K, (List.mem_filter.mp hKf).1, by
        rw [← hgK]
        exact component_group_voxels_toFinset S dims bv "cavity" K
          (hsub K (List.mem_filter.mp hKf).1)⟩
  constructor
  · ext v
    rw [mem_groups_voxel_union, list_toFinset_eq_range_image bv]
    constructor
    · rintro ⟨g, hg, hv⟩
      obtain ⟨K, hK, heq⟩ := hvF g hg
      rw [heq] at hv
      exact Finset.image_subset_image (hsub K hK) hv
    · intro hv
      obtain ⟨i, hiI, hgv⟩ := Finset.mem_image.mp hv
      obtain ⟨K, hKcomp, hiK⟩ := exists_component bv I (show i ∈ I from hiI)
      have hKKs : K ∈ Ks := (hmem K).mpr hKcomp
      by_cases hf : pore_flag bv ev K
      · refine ⟨component_group S dims bv "pore" K, List.mem_append.mpr (Or.inl ?_), ?_⟩
        · rw [hP]
          exact List.mem_map.mpr ⟨K, List.mem_filter.mpr ⟨hKKs, hf⟩, rfl⟩
        · rw [component_group_voxels_toFinset S dims bv "pore" K (hsub K hKKs)]
          exact Finset.mem_image.mpr ⟨i, hiK, hgv⟩
      · refine ⟨component_group S dims bv "cavity" K, List.mem_append.mpr (Or.inr ?_), ?_⟩
        · rw [hC]
          refine List.mem_map.mpr ⟨K, List.mem_filter.mpr ⟨hKKs, ?_⟩, rfl⟩
          simp only [Bool.not_eq_true] at hf
          simp [hf]
        · rw [component_group_voxels_toFinset S dims bv "cavity" K (hsub K hKKs)]
          exact Finset.mem_image.mpr ⟨i, hiK, hgv⟩
  · have hKsPW : Ks.Pairwise (fun K K2 =>
        Disjoint (K.image (get_single_voxel bv)) (K2.image (get_single_voxel bv))) := by
      refine List.Pairwise.imp_of_mem ?_ hndKs
      intro K K2 hK hK2 hne
      exact image_disjoint_of_disjoint bv hnd (hsub K hK) (hsub K2 hK2)
        (components_disjoint bv (hcomps K hK) (hcomps K2 hK2) hne)
    rw [hP, hC, List.pairwise_append]
    refine ⟨?_, ?_, ?_⟩
    · rw [List.pairwise_map]
      refine List.Pairwise.imp_of_mem ?_ (hKsPW.filter _)
      intro K K2 hK hK2 hd
      rw [component_group_voxels_toFinset S dims bv "pore" K
          (hsub K (List.mem_of_mem_filter hK)),
        component_group_voxels_toFinset S dims bv "pore" K2
          (hsub K2 (List.mem_of_mem_filter hK2))]
      exact hd
    · rw [List.pairwise_map]
      refine List.Pairwise.imp_of_mem ?_ (hKsPW.filter _)
      intro K K2 hK hK2 hd
      rw [component_group_voxels_toFinset S dims bv "cavity" K
          (hsub K (List.mem_of_mem_filter hK)),
        component_group_voxels_toFinset S dims bv "cavity" K2
          (hsub K2 (List.mem_of_mem_filter hK2))]
      exact hd
    · intro g hg g2 hg2
      obtain ⟨K, hKf, hgK⟩ := List.mem_map.mp hg
      obtain ⟨K2, hK2f, hgK2⟩ := List.mem_map.mp hg2
      have hKflag : pore_flag bv ev K = true := (List.mem_filter.mp hKf).2
      have hK2flag : (! pore_flag bv ev K2) = true := (List.mem_filter.mp hK2f).2
      have hne : K ≠ K2 := by
        intro heq
        rw [heq] at hKflag
        rw [hKflag] at hK2flag
        exact absurd hK2flag (by simp)
      rw [← hgK, ← hgK2,
        component_group_voxels_toFinset S dims bv "pore" K
          (hsub K (List.mem_filter.mp hKf).1),
        component_group_voxels_toFinset S dims bv "cavity" K2
          (hsub K2 (List.mem_filter.mp hK2f).1)]
      exact image_disjoint_of_disjoint bv hnd
        (hsub K (List.mem_filter.mp hKf).1) (hsub K2 (List.mem_filter.mp hK2f).1)
        (components_disjoint bv (hcomps K (List.mem_filter.mp hKf).1)
          (hcomps K2 (List.mem_filter.mp hK2f).1) hne)

/-- Splitting a list by a Boolean predicate partitions its element set. -/
theorem filter_toFinset_partition {α : Type} [DecidableEq α] (l : List α) (p : α → Bool) :
    Disjoint (l.filter p).toFinset (l.filter (fun a => ! p a)).toFinset ∧
      (l.filter p).toFinset ∪ (l.filter (fun a => ! p a)).toFinset = l.toFinset := by
  constructor
  · rw [Finset.disjoint_left]
    intro a ha ha2
    rw [List.mem_toFinset, List.mem_filter] at ha ha2
    rw [ha.2] at ha2
    exact absurd ha2.2 (by simp)
  · ext a
    simp only [Finset.mem_union, List.mem_toFinset, List.mem_filter, Bool.not_eq_true']
    rcases Bool.eq_false_or_eq_true (p a) with hp | hp <;> simp [hp]

theorem grid_voxels_nodup (dims : Voxel) : (grid_voxels dims).Nodup := by
  unfold grid_voxels
  rw [List.nodup_flatMap]
  constructor
  · intro i hi
    rw [List.nodup_flatMap]
    constructor
    · intro j hj
      exact (List.nodup_range _).map (fun a b hab => by
        simpa using congrArg (fun v : Voxel => v.2.2) hab)
    · refine List.Pairwise.imp_of_mem ?_ (List.nodup_range dims.2.1)
      intro j j2 hj hj2 hne
      rw [Function.onFun, List.disjoint_left]
      intro v hv hv2
      obtain ⟨k, hk, hkv⟩ := List.mem_map.mp hv
      obtain ⟨k2, hk2, hk2v⟩ := List.mem_map.mp hv2
      rw [← hk2v] at hkv
      exact hne (by simpa using congrArg (fun v : Voxel => v.2.1) hkv)
  · refine List.Pairwise.imp_of_mem ?_ (List.nodup_range dims.1)
    intro i i2 hi hi2 hne
    rw [Function.onFun, List.disjoint_left]
    intro v hv hv2
    obtain ⟨j, hj, hjv⟩ := List.mem_flatMap.mp hv
    obtain ⟨j2, hj2, hj2v⟩ := List.mem_flatMap.mp hv2
    obtain ⟨k, hk, hkv⟩ := List.mem_map.mp hjv
    obtain ⟨k2, hk2, hk2v⟩ := List.mem_map.mp hj2v
    rw [← hk2v] at hkv
    exact hne (by simpa using congrArg (fun v : Voxel => v.1) hkv)

theorem x_array_col_eq (l : List Voxel) (j k : ℕ) :
    x_array_col l j k = spec_x_column l j k := by
  induction l with
  | nil => rfl
  | cons v vs ih =>
      simp only [x_array_col, spec_x_column, List.filter_cons] at ih ⊢
      by_cases h : v.2.1 = j ∧ v.2.2 = k
      · simp [h, ih]
      · simp [h, ih]

theorem y_array_col_eq (l : List Voxel) (i k : ℕ) :
    y_array_col l i k = spec_y_column l i k := by
  induction l with
  | nil => rfl
  | cons v vs ih =>
      simp only [y_array_col, spec_y_column, List.filter_cons] at ih ⊢
      by_cases h : v.1 = i ∧ v.2.2 = k
      · simp [h, ih]
      · simp [h, ih]

theorem z_array_col_eq (l : List Voxel) (i j : ℕ) :
    z_array_col l i j = spec_z_column l i j := by
  induction l with
  | nil => rfl
  | cons v vs ih =>
      simp only [z_array_col, spec_z_column, List.filter_cons] at ih ⊢
      by_cases h : v.1 = i ∧ v.2.1 = j
      · simp [h, ih]
      · simp [h, ih]

theorem occl_entry_0 (q : Voxel) (px py pz : List ℕ) :
    (get_occluded_dimensions q px py pz).getD 0 0 =
      if px ≠ [] ∧ list_min px < q.1 then 1 else 0 := rfl

theorem occl_entry_1 (q : Voxel) (px py pz : List ℕ) :
    (get_occluded_dimensions q px py pz).getD 1 0 =
      if px ≠ [] ∧ list_max px > q.1 then 1 else 0 := rfl

theorem occl_entry_2 (q : Voxel) (px py pz : List ℕ) :
    (get_occluded_dimensions q px py pz).getD 2 0 =
      if py ≠ [] ∧ list_min py < q.2.1 then 1 else 0 := rfl

theorem occl_entry_3 (q : Voxel) (px py pz : List ℕ) :
    (get_occluded_dimensions q px py pz).getD 3 0 =
      if py ≠ [] ∧ list_max py > q.2.1 then 1 else 0 := rfl

theorem occl_entry_4 (q : Voxel) (px py pz : List ℕ) :
    (get_occluded_dimensions q px py pz).getD 4 0 =
      if pz ≠ [] ∧ list_min pz < q.2.2 then 1 else 0 := rfl

theorem occl_entry_5 (q : Voxel) (px py pz : List ℕ) :
    (get_occluded_dimensions q px py pz).getD 5 0 =
      if pz ≠ [] ∧ list_max pz > q.2.2 then 1 else 0 := rfl

theorem if_one_zero_eq_one (b : Prop) [Decidable b] :
    ((if b then (1 : ℕ) else 0) = 1) ↔ b := by
  split_ifs with h <;> simp [h]

theorem heap_write_self (h : SetHeap) (cell : ℕ) (v : Finset ℕ) :
    heap_write h cell v cell = v := by
  simp [heap_write]

theorem heap_write_other (h : SetHeap) (cell : ℕ) (v : Finset ℕ) {a : ℕ}
    (hne : a ≠ cell) : heap_write h cell v a = h a := by
  simp [heap_write, hne]

/-- The heap-threaded loop computes the same neighbour set as the pure loop
run on the cell's content, and touches no other cell. -/
theorem bfs_loop_heap_spec (σ : Selector) (voxels : List Voxel) :
    ∀ (fuel : ℕ) (Q N : Finset ℕ) (h : SetHeap) (cell : ℕ),
      (bfs_loop_heap σ voxels fuel Q N h cell).2 =
        bfs_loop σ voxels fuel Q N (h cell) ∧
      ∀ a, a ≠ cell → (bfs_loop_heap σ voxels fuel Q N h cell).1 a = h a := by
  intro fuel
  induction fuel with
  | zero =>
      intro Q N h cell
      exact ⟨rfl, fun a _ => rfl⟩
  | succ fuel ih =>
      intro Q N h cell
      by_cases hq : Q.Nonempty
      · have hheap : bfs_loop_heap σ voxels (fuel + 1) Q N h cell =
            bfs_loop_heap σ voxels fuel
              ((Q.erase (σ.pick Q hq)) ∪ bfs_found voxels (σ.pick Q hq) (h cell))
              (N ∪ bfs_found voxels (σ.pick Q hq) (h cell))
              (heap_write h cell ((h cell) \ (N ∪ bfs_found voxels (σ.pick Q hq) (h cell))))
              cell := by
          simp only [bfs_loop_heap, dif_pos hq]
        have hpure : bfs_loop σ voxels (fuel + 1) Q N (h cell) =
            bfs_loop σ voxels fuel
              ((Q.erase (σ.pick Q hq)) ∪ bfs_found voxels (σ.pick Q hq) (h cell))
              (N ∪ bfs_found voxels (σ.pick Q hq) (h cell))
              ((h cell) \ (N ∪ bfs_found voxels (σ.pick Q hq) (h cell))) := by
          simp only [bfs_loop, dif_pos hq]
        obtain ⟨ihres, ihframe⟩ := ih
          ((Q.erase (σ.pick Q hq)) ∪ bfs_found voxels (σ.pick Q hq) (h cell))
          (N ∪ bfs_found voxels (σ.pick Q hq) (h cell))
          (heap_write h cell ((h cell) \ (N ∪ bfs_found voxels (σ.pick Q hq) (h cell))))
          cell
        constructor
        · rw [hheap, hpure, ihres, heap_write_self]
        · intro a ha
          rw [hheap, ihframe a ha, heap_write_other h cell _ ha]
      · have hheap : bfs_loop_heap σ voxels (fuel + 1) Q N h cell = (h, N) := by
          simp only [bfs_loop_heap, dif_neg hq]
        have hpure : bfs_loop σ voxels (fuel + 1) Q N (h cell) = N := by
          simp only [bfs_loop, dif_neg hq]
        rw [hheap, hpure]
        exact ⟨rfl, fun a _ => rfl⟩

/-- The deep copy isolates the caller: the heap run leaves every cell other
than the fresh copy untouched and returns the pure search result of the
argument's original value. -/
theorem breadth_first_search_heap_spec (σ : Selector) (voxels : List Voxel)
    (h : SetHeap) (arg fresh : ℕ) :
    (∀ a, a ≠ fresh → (breadth_first_search_heap σ voxels h arg fresh).1 a = h a) ∧
    (breadth_first_search_heap σ voxels h arg fresh).2 =
      breadth_first_search σ voxels (h arg) := by
  have hunfold : breadth_first_search_heap σ voxels h arg fresh =
      (if hs : (h arg).Nonempty then
        bfs_loop_heap σ voxels (h arg).card {σ.pick (h arg) hs} {σ.pick (h arg) hs}
          (heap_write (heap_write h fresh (h arg)) fresh
            ((h arg).erase (σ.pick (h arg) hs))) fresh
      else (heap_write h fresh (h arg), ∅)) := by
    simp only [breadth_first_search_heap, heap_write_self]
  rw [hunfold]
  by_cases hs : (h arg).Nonempty
  · rw [dif_pos hs]
    have hpure : breadth_first_search σ voxels (h arg) =
        bfs_loop σ voxels (h arg).card {σ.pick (h arg) hs} {σ.pick (h arg) hs}
          ((h arg).erase (σ.pick (h arg) hs)) := by
      simp only [breadth_first_search, dif_pos hs]
    obtain ⟨hres, hframe⟩ := bfs_loop_heap_spec σ voxels (h arg).card
      {σ.pick (h arg) hs} {σ.pick (h arg) hs}
      (heap_write (heap_write h fresh (h arg)) fresh
        ((h arg).erase (σ.pick (h arg) hs))) fresh
    constructor
    · intro a ha
      rw [hframe a ha, heap_write_other _ _ _ ha, heap_write_other _ _ _ ha]
    · rw [hres, heap_write_self, hpure]
  · rw [dif_neg hs]
    constructor
    · intro a ha
      exact heap_write_other h fresh (h arg) ha
    · have hpure : breadth_first_search σ voxels (h arg) = ∅ := by
        simp only [breadth_first_search, dif_neg hs]
      rw [hpure]

/-- C2: for every empty voxel, the buried/exposed decision is a function of
the popcount `p` of its 6-bit occlusion vector: `p ≥ 5` implies buried;
`p = 4` implies buried if and only if the two zero bits form a matched pair
on the same axis (both x bits, both y bits, or both z bits zero); `p ≤ 3`
implies exposed. -/
theorem claim_C2_buried_rule (a b c d e f : ℕ)
    (ha : a ≤ 1) (hb : b ≤ 1) (hc : c ≤ 1) (hd : d ≤ 1) (he : e ≤ 1) (hf : f ≤ 1) :
    (5 ≤ ([a, b, c, d, e, f].count 1) → is_buried [a, b, c, d, e, f] = true) ∧
    (([a, b, c, d, e, f].count 1) = 4 →
      (is_buried [a, b, c, d, e, f] = true ↔
        ((a = 0 ∧ b = 0) ∨ (c = 0 ∧ d = 0) ∨ (e = 0 ∧ f = 0)))) ∧
    (([a, b, c, d, e, f].count 1) ≤ 3 → is_buried [a, b, c, d, e, f] = false) := by
  interval_cases a <;> interval_cases b <;> interval_cases c <;>
    interval_cases d <;> interval_cases e <;> interval_cases f <;> decide

/-- Witness for C2: at the occlusion vector `(0,0,1,1,1,1)` the popcount is
4 with the x pair unoccluded, and the rule declares the voxel buried. -/
theorem claim_C2_buried_rule_witness :
    (5 ≤ ([0, 0, 1, 1, 1, 1].count 1) → is_buried [0, 0, 1, 1, 1, 1] = true) ∧
    (([0, 0, 1, 1, 1, 1].count 1) = 4 →
      (is_buried [0, 0, 1, 1, 1, 1] = true ↔
        ((0 = 0 ∧ 0 = 0) ∨ (1 = 0 ∧ 1 = 0) ∨ (1 = 0 ∧ 1 = 0)))) ∧
    (([0, 0, 1, 1, 1, 1].count 1) ≤ 3 → is_buried [0, 0, 1, 1, 1, 1] = false) :=
  claim_C2_buried_rule 0 0 1 1 1 1 (by decide) (by decide) (by decide)
    (by decide) (by decide) (by decide)

/-- C3: for every empty voxel whose per-axis protein projection columns are
nonempty, the occlusion bits are computed from the column extrema only: the
negative-axis bit is 1 exactly when the column minimum is strictly below the
query coordinate, and the positive-axis bit exactly when the column maximum
is strictly above it. -/
theorem claim_C3_occlusion_from_extrema (protein : List Voxel) (q : Voxel)
    (hx : spec_x_column protein q.2.1 q.2.2 ≠ [])
    (hy : spec_y_column protein q.1 q.2.2 ≠ [])
    (hz : spec_z_column protein q.1 q.2.1 ≠ []) :
    ((occlusion_of protein q).getD 0 0 = 1 ↔
      list_min (spec_x_column protein q.2.1 q.2.2) < q.1) ∧
    ((occlusion_of protein q).getD 1 0 = 1 ↔
      list_max (spec_x_column protein q.2.1 q.2.2) > q.1) ∧
    ((occlusion_of protein q).getD 2 0 = 1 ↔
      list_min (spec_y_column protein q.1 q.2.2) < q.2.1) ∧
    ((occlusion_of protein q).getD 3 0 = 1 ↔
      list_max (spec_y_column protein q.1 q.2.2) > q.2.1) ∧
    ((occlusion_of protein q).getD 4 0 = 1 ↔
      list_min (spec_z_column protein q.1 q.2.1) < q.2.2) ∧
    ((occlusion_of protein q).getD 5 0 = 1 ↔
      list_max (spec_z_column protein q.1 q.2.1) > q.2.2) := by
  have hocc : occlusion_of protein q = get_occluded_dimensions q
      (x_array_col protein q.2.1 q.2.2) (y_array_col protein q.1 q.2.2)
      (z_array_col protein q.1 q.2.1) := rfl
  refine ⟨?_, ?_, ?_, ?_, ?_, ?_⟩
  · rw [hocc, occl_entry_0, x_array_col_eq, if_one_zero_eq_one, and_iff_right hx]
  · rw [hocc, occl_entry_1, x_array_col_eq, if_one_zero_eq_one, and_iff_right hx]
  · rw [hocc, occl_entry_2, y_array_col_eq, if_one_zero_eq_one, and_iff_right hy]
  · rw [hocc, occl_entry_3, y_array_col_eq, if_one_zero_eq_one, and_iff_right hy]
  · rw [hocc, occl_entry_4, z_array_col_eq, if_one_zero_eq_one, and_iff_right hz]
  · rw [hocc, occl_entry_5, z_array_col_eq, if_one_zero_eq_one, and_iff_right hz]

/-- Witness for C3: a query voxel at `(3,1,2)` whose three protein columns
are nonempty. -/
theorem claim_C3_occlusion_from_extrema_witness :
    ((occlusion_of [(0, 1, 2), (5, 1, 2), (3, 0, 2), (3, 9, 2), (3, 1, 0), (3, 1, 7)]
        (3, 1, 2)).getD 0 0 = 1 ↔
      list_min (spec_x_column [(0, 1, 2), (5, 1, 2), (3, 0, 2), (3, 9, 2), (3, 1, 0), (3, 1, 7)]
        1 2) < 3) ∧
    ((occlusion_of [(0, 1, 2), (5, 1, 2), (3, 0, 2), (3, 9, 2), (3, 1, 0), (3, 1, 7)]
        (3, 1, 2)).getD 1 0 = 1 ↔
      list_max (spec_x_column [(0, 1, 2), (5, 1, 2), (3, 0, 2), (3, 9, 2), (3, 1, 0), (3, 1, 7)]
        1 2) > 3) ∧
    ((occlusion_of [(0, 1, 2), (5, 1, 2), (3, 0, 2), (3, 9, 2), (3, 1, 0), (3, 1, 7)]
        (3, 1, 2)).getD 2 0 = 1 ↔
      list_min (spec_y_column [(0, 1, 2), (5, 1, 2), (3, 0, 2), (3, 9, 2), (3, 1, 0), (3, 1, 7)]
        3 2) < 1) ∧
    ((occlusion_of [(0, 1, 2), (5, 1, 2), (3, 0, 2), (3, 9, 2), (3, 1, 0), (3, 1, 7)]
        (3, 1, 2)).getD 3 0 = 1 ↔
      list_max (spec_y_column [(0, 1, 2), (5, 1, 2), (3, 0, 2), (3, 9, 2), (3, 1, 0), (3, 1, 7)]
        3 2) > 1) ∧
    ((occlusion_of [(0, 1, 2), (5, 1, 2), (3, 0, 2), (3, 9, 2), (3, 1, 0), (3, 1, 7)]
        (3, 1, 2)).getD 4 0 = 1 ↔
      list_min (spec_z_column [(0, 1, 2), (5, 1, 2), (3, 0, 2), (3, 9, 2), (3, 1, 0), (3, 1, 7)]
        3 1) < 2) ∧
    ((occlusion_of [(0, 1, 2), (5, 1, 2), (3, 0, 2), (3, 9, 2), (3, 1, 0), (3, 1, 7)]
        (3, 1, 2)).getD 5 0 = 1 ↔
      list_max (spec_z_column [(0, 1, 2), (5, 1, 2), (3, 0, 2), (3, 9, 2), (3, 1, 0), (3, 1, 7)]
        3 1) > 2) :=
  claim_C3_occlusion_from_extrema
    [(0, 1, 2), (5, 1, 2), (3, 0, 2), (3, 9, 2), (3, 1, 0), (3, 1, 7)] (3, 1, 2)
    (by decide) (by decide) (by decide)

/-- C4: for every buried component whose extended surface set is nonempty,
`is_pore` returns `false` (the `get_pores_and_cavities` loop then records the
group as a cavity) exactly when component labelling of the extended surface
set under 6-connectivity yields one connected component, and returns `true`
(the group is recorded as a pore) when it yields two or more. -/
theorem claim_C4_surface_components_decide (σ : Selector) (bv ev : List Voxel)
    (P : Finset ℕ) (hne : (surface_indices P bv ev).Nonempty) :
    (connected_in bv (surface_indices P bv ev) → is_pore σ P bv ev = false) ∧
    (¬ connected_in bv (surface_indices P bv ev) → is_pore σ P bv ev = true) := by
  constructor
  · intro hconn
    exact (is_pore_eq_false_iff σ P bv ev hne).mpr hconn
  · intro hnconn
    cases hval : is_pore σ P bv ev
    · exact absurd ((is_pore_eq_false_iff σ P bv ev hne).mp hval) hnconn
    · rfl

/-- Witness for C4: a two-voxel component whose extended surface set is the
whole component and is nonempty. -/
theorem claim_C4_surface_components_decide_witness :
    (connected_in [(0, 0, 0), (1, 0, 0)]
        (surface_indices {0, 1} [(0, 0, 0), (1, 0, 0)] [(2, 0, 0)]) →
      is_pore minSelector {0, 1} [(0, 0, 0), (1, 0, 0)] [(2, 0, 0)] = false) ∧
    (¬ connected_in [(0, 0, 0), (1, 0, 0)]
        (surface_indices {0, 1} [(0, 0, 0), (1, 0, 0)] [(2, 0, 0)]) →
      is_pore minSelector {0, 1} [(0, 0, 0), (1, 0, 0)] [(2, 0, 0)] = true) :=
  claim_C4_surface_components_decide minSelector [(0, 0, 0), (1, 0, 0)] [(2, 0, 0)]
    {0, 1} (by decide)

/-- C9: the classifier terminates: every breadth-first search over a
nonempty searchable set returns a subset of it containing the popped start
element, so each loop iteration of `get_pores_and_cavities` strictly grows
the agglomerated set and the loop completes within one iteration per buried
voxel, yielding a result. -/
theorem claim_C9_termination (σ : Selector) :
    (∀ (voxels : List Voxel) (s : Finset ℕ) (h : s.Nonempty),
      σ.pick s h ∈ breadth_first_search σ voxels s ∧
        breadth_first_search σ voxels s ⊆ s) ∧
    (∀ (S : ℚ) (buried_voxels exposed_voxels : VoxelGroup) (dims : Voxel),
      ∃ pc, get_pores_and_cavities σ S buried_voxels exposed_voxels dims = some pc) := by
  constructor
  · intro voxels s h
    exact ⟨pick_mem_breadth_first_search σ voxels s h,
      breadth_first_search_subset σ voxels s⟩
  · intro S bg eg dims
    exact get_pores_and_cavities_isSome σ S bg eg dims

/-- Witness for C9: the search on the singleton set `{0}` contains its
start and stays inside it, and the classifier on a one-voxel buried group
returns a result. -/
theorem claim_C9_termination_witness :
    (minSelector.pick {0} (Finset.singleton_nonempty 0) ∈
        breadth_first_search minSelector [((0 : ℕ), (0 : ℕ), (0 : ℕ))] {0} ∧
      breadth_first_search minSelector [((0 : ℕ), (0 : ℕ), (0 : ℕ))] {0} ⊆ {0}) ∧
    (∃ pc, get_pores_and_cavities minSelector 1
        ⟨[(0, 0, 0)], {0}, 1, "buried", 1⟩ ⟨[], ∅, 0, "exposed", 0⟩ (1, 1, 1) =
      some pc) :=
  ⟨(claim_C9_termination minSelector).1 [((0 : ℕ), (0 : ℕ), (0 : ℕ))] {0}
      (Finset.singleton_nonempty 0),
   (claim_C9_termination minSelector).2 1
      ⟨[(0, 0, 0)], {0}, 1, "buried", 1⟩ ⟨[], ∅, 0, "exposed", 0⟩ (1, 1, 1)⟩

/-- C10: `breadth_first_search` does not mutate its caller's arguments: in
the heap model the body deep-copies the searchable set into a fresh object
and mutates only that object, so the caller's cell holds the same set before
and after the call and the result is the pure function of the original
value.  The voxel coordinate arrays are passed untouched: the body contains
no write to them, which the model reflects by threading them by value. -/
theorem claim_C10_no_caller_mutation (σ : Selector) (voxels : List Voxel)
    (h : SetHeap) (arg fresh : ℕ) (hfresh : fresh ≠ arg) :
    (breadth_first_search_heap σ voxels h arg fresh).1 arg = h arg ∧
    (∀ a, a ≠ fresh → (breadth_first_search_heap σ voxels h arg fresh).1 a = h a) ∧
    (breadth_first_search_heap σ voxels h arg fresh).2 =
      breadth_first_search σ voxels (h arg) := by
  obtain ⟨hframe, hres⟩ := breadth_first_search_heap_spec σ voxels h arg fresh
  exact ⟨hframe arg (Ne.symm hfresh), hframe, hres⟩

/-- Witness for C10 at a one-cell heap holding `{0}`. -/
theorem claim_C10_no_caller_mutation_witness :
    (breadth_first_search_heap minSelector [((0 : ℕ), (0 : ℕ), (0 : ℕ))]
        (fun _ => {0}) 0 1).1 0 = (fun _ => ({0} : Finset ℕ)) 0 ∧
    (∀ a, a ≠ 1 → (breadth_first_search_heap minSelector [((0 : ℕ), (0 : ℕ), (0 : ℕ))]
        (fun _ => {0}) 0 1).1 a = (fun _ => ({0} : Finset ℕ)) a) ∧
    (breadth_first_search_heap minSelector [((0 : ℕ), (0 : ℕ), (0 : ℕ))]
        (fun _ => {0}) 0 1).2 =
      breadth_first_search minSelector [((0 : ℕ), (0 : ℕ), (0 : ℕ))]
        ((fun _ => ({0} : Finset ℕ)) 0) :=
  claim_C10_no_caller_mutation minSelector [((0 : ℕ), (0 : ℕ), (0 : ℕ))]
    (fun _ => {0}) 0 1 (by decide)

/-- C6: for a fixed input and configuration the classification is
deterministic up to the arbitrary order in which components are discovered:
any two runs, whatever elements their set pops return, produce the same
multiset of pore groups and the same multiset of cavity groups, so after
sorting the outputs agree. -/
theorem claim_C6_determinism (σ₁ σ₂ : Selector) (S : ℚ)
    (buried_voxels exposed_voxels : VoxelGroup) (dims : Voxel)
    (P₁ C₁ P₂ C₂ : List VoxelGroup)
    (h₁ : get_pores_and_cavities σ₁ S buried_voxels exposed_voxels dims = some (P₁, C₁))
    (h₂ : get_pores_and_cavities σ₂ S buried_voxels exposed_voxels dims = some (P₂, C₂)) :
    P₁.Perm P₂ ∧ C₁.Perm C₂ :=
  gpc_result_perm σ₁ σ₂ S buried_voxels exposed_voxels dims P₁ C₁ P₂ C₂ h₁ h₂

/-- Witness for C6: two runs with opposite pop orders on a two-component
input produce the same groups in swapped discovery order. -/
theorem claim_C6_determinism_witness :
    List.Perm ([] : List VoxelGroup) [] ∧
    List.Perm
      [component_group 1 (3, 1, 1) [(0, 0, 0), (2, 0, 0)] "cavity" {0},
       component_group 1 (3, 1, 1) [(0, 0, 0), (2, 0, 0)] "cavity" {1}]
      [component_group 1 (3, 1, 1) [(0, 0, 0), (2, 0, 0)] "cavity" {1},
       component_group 1 (3, 1, 1) [(0, 0, 0), (2, 0, 0)] "cavity" {0}] :=
  claim_C6_determinism minSelector maxSelector 1
    ⟨[(0, 0, 0), (2, 0, 0)], {0, 2}, 2, "buried", 2⟩ ⟨[], ∅, 0, "exposed", 0⟩ (3, 1, 1)
    []
    [component_group 1 (3, 1, 1) [(0, 0, 0), (2, 0, 0)] "cavity" {0},
     component_group 1 (3, 1, 1) [(0, 0, 0), (2, 0, 0)] "cavity" {1}]
    []
    [component_group 1 (3, 1, 1) [(0, 0, 0), (2, 0, 0)] "cavity" {1},
     component_group 1 (3, 1, 1) [(0, 0, 0), (2, 0, 0)] "cavity" {0}]
    (by rfl) (by rfl)

/-- C7: every voxel group emitted by the pipeline (protein, solvent,
exposed, buried, pore and cavity groups) satisfies
`volume = num_voxels * S ^ 3` for the voxel edge length `S` of the
invocation. -/
theorem claim_C7_volume_formula (S : ℚ) (σ : Selector) (dims : Voxel) :
    (∀ arr : Voxel → Bool,
      (get_protein_and_solvent_voxels S arr dims).1.volume =
        ((get_protein_and_solvent_voxels S arr dims).1.num_voxels : ℚ) * VOXEL_VOLUME S ∧
      (get_protein_and_solvent_voxels S arr dims).2.volume =
        ((get_protein_and_solvent_voxels S arr dims).2.num_voxels : ℚ) * VOXEL_VOLUME S) ∧
    (∀ solvent_voxels protein_voxels : VoxelGroup,
      (get_exposed_and_buried_voxels S solvent_voxels protein_voxels dims).1.volume =
        ((get_exposed_and_buried_voxels S solvent_voxels protein_voxels dims).1.num_voxels : ℚ)
          * VOXEL_VOLUME S ∧
      (get_exposed_and_buried_voxels S solvent_voxels protein_voxels dims).2.volume =
        ((get_exposed_and_buried_voxels S solvent_voxels protein_voxels dims).2.num_voxels : ℚ)
          * VOXEL_VOLUME S) ∧
    (∀ (buried_voxels exposed_voxels : VoxelGroup) (P C : List VoxelGroup),
      get_pores_and_cavities σ S buried_voxels exposed_voxels dims = some (P, C) →
      ∀ g ∈ P ++ C, g.volume = (g.num_voxels : ℚ) * VOXEL_VOLUME S) := by
  refine ⟨fun arr => ⟨rfl, rfl⟩, fun sv pv => ⟨rfl, rfl⟩, ?_⟩
  intro bg eg P C h g hg
  exact gpc_loop_volumes σ S dims bg.voxels eg.voxels
    (Finset.range bg.voxels.length) bg.voxels.length ∅ [] [] P C (by simp) h g hg

/-- Witness for C7: a one-voxel cavity group produced at edge length 2. -/
theorem claim_C7_volume_formula_witness :
    (component_group 2 (1, 1, 1) [(0, 0, 0)] "cavity" {0}).volume =
      ((component_group 2 (1, 1, 1) [(0, 0, 0)] "cavity" {0}).num_voxels : ℚ)
        * VOXEL_VOLUME 2 :=
  (claim_C7_volume_formula 2 minSelector (1, 1, 1)).2.2
    ⟨[(0, 0, 0)], {0}, 1, "buried", 8⟩ ⟨[], ∅, 0, "exposed", 0⟩
    [] [component_group 2 (1, 1, 1) [(0, 0, 0)] "cavity" {0}] (by rfl)
    (component_group 2 (1, 1, 1) [(0, 0, 0)] "cavity" {0}) (by simp)

/-- C5: the protein and solvent groups partition the grid; the exposed and
buried groups partition the solvent group; and, before any min-size
filtering, the classified groups (here pores and cavities; the source
populates no hub, pocket or occluded output) are pairwise disjoint and cover
exactly the buried group. -/
theorem claim_C5_partition (S : ℚ) (σ : Selector) (arr : Voxel → Bool) (dims : Voxel) :
    (Disjoint (get_protein_and_solvent_voxels S arr dims).1.voxels.toFinset
        (get_protein_and_solvent_voxels S arr dims).2.voxels.toFinset ∧
      (get_protein_and_solvent_voxels S arr dims).1.voxels.toFinset ∪
          (get_protein_and_solvent_voxels S arr dims).2.voxels.toFinset =
        (grid_voxels dims).toFinset) ∧
    (Disjoint
        (get_exposed_and_buried_voxels S (get_protein_and_solvent_voxels S arr dims).2
          (get_protein_and_solvent_voxels S arr dims).1 dims).1.voxels.toFinset
        (get_exposed_and_buried_voxels S (get_protein_and_solvent_voxels S arr dims).2
          (get_protein_and_solvent_voxels S arr dims).1 dims).2.voxels.toFinset ∧
      (get_exposed_and_buried_voxels S (get_protein_and_solvent_voxels S arr dims).2
            (get_protein_and_solvent_voxels S arr dims).1 dims).1.voxels.toFinset ∪
          (get_exposed_and_buried_voxels S (get_protein_and_solvent_voxels S arr dims).2
            (get_protein_and_solvent_voxels S arr dims).1 dims).2.voxels.toFinset =
        (get_protein_and_solvent_voxels S arr dims).2.voxels.toFinset) ∧
    (∀ P C,
      get_pores_and_cavities σ S
          (get_exposed_and_buried_voxels S (get_protein_and_solvent_voxels S arr dims).2
            (get_protein_and_solvent_voxels S arr dims).1 dims).2
          (get_exposed_and_buried_voxels S (get_protein_and_solvent_voxels S arr dims).2
            (get_protein_and_solvent_voxels S arr dims).1 dims).1 dims =
        some (P, C) →
      groups_voxel_union (P ++ C) =
          (get_exposed_and_buried_voxels S (get_protein_and_solvent_voxels S arr dims).2
            (get_protein_and_solvent_voxels S arr dims).1 dims).2.voxels.toFinset ∧
        List.Pairwise (fun g g2 => Disjoint g.voxels.toFinset g2.voxels.toFinset)
          (P ++ C)) := by
  refine ⟨?_, ?_, ?_⟩
  · exact filter_toFinset_partition (grid_voxels dims) (fun v => arr v)
  · obtain ⟨hd, hu⟩ := filter_toFinset_partition
      (get_protein_and_solvent_voxels S arr dims).2.voxels
      (fun q => is_buried (occlusion_of (get_protein_and_solvent_voxels S arr dims).1.voxels q))
    exact ⟨hd.symm, by rw [Finset.union_comm]; exact hu⟩
  · intro P C h
    refine gpc_partition σ S _ _ dims P C ?_ h
    exact List.Nodup.filter _ (List.Nodup.filter _ (grid_voxels_nodup dims))

/-- Witness for C5 on the one-voxel all-protein grid, where the solvent,
exposed and buried groups and the classifier output are all empty. -/
theorem claim_C5_partition_witness :
    (Disjoint (get_protein_and_solvent_voxels 1 (fun _ => true) (1, 1, 1)).1.voxels.toFinset
        (get_protein_and_solvent_voxels 1 (fun _ => true) (1, 1, 1)).2.voxels.toFinset ∧
      (get_protein_and_solvent_voxels 1 (fun _ => true) (1, 1, 1)).1.voxels.toFinset ∪
          (get_protein_and_solvent_voxels 1 (fun _ => true) (1, 1, 1)).2.voxels.toFinset =
        (grid_voxels (1, 1, 1)).toFinset) ∧
    (Disjoint
        (get_exposed_and_buried_voxels 1 (get_protein_and_solvent_voxels 1 (fun _ => true) (1, 1, 1)).2
          (get_protein_and_solvent_voxels 1 (fun _ => true) (1, 1, 1)).1 (1, 1, 1)).1.voxels.toFinset
        (get_exposed_and_buried_voxels 1 (get_protein_and_solvent_voxels 1 (fun _ => true) (1, 1, 1)).2
          (get_protein_and_solvent_voxels 1 (fun _ => true) (1, 1, 1)).1 (1, 1, 1)).2.voxels.toFinset ∧
      (get_exposed_and_buried_voxels 1 (get_protein_and_solvent_voxels 1 (fun _ => true) (1, 1, 1)).2
            (get_protein_and_solvent_voxels 1 (fun _ => true) (1, 1, 1)).1 (1, 1, 1)).1.voxels.toFinset ∪
          (get_exposed_and_buried_voxels 1 (get_protein_and_solvent_voxels 1 (fun _ => true) (1, 1, 1)).2
            (get_protein_and_solvent_voxels 1 (fun _ => true) (1, 1, 1)).1 (1, 1, 1)).2.voxels.toFinset =
        (get_protein_and_solvent_voxels 1 (fun _ => true) (1, 1, 1)).2.voxels.toFinset) ∧
    (groups_voxel_union ([] ++ []) =
        (get_exposed_and_buried_voxels 1 (get_protein_and_solvent_voxels 1 (fun _ => true) (1, 1, 1)).2
          (get_protein_and_solvent_voxels 1 (fun _ => true) (1, 1, 1)).1 (1, 1, 1)).2.voxels.toFinset ∧
      List.Pairwise (fun g g2 => Disjoint g.voxels.toFinset g2.voxels.toFinset)
        (([] : List VoxelGroup) ++ [])) :=
  ⟨(claim_C5_partition 1 minSelector (fun _ => true) (1, 1, 1)).1,
   (claim_C5_partition 1 minSelector (fun _ => true) (1, 1, 1)).2.1,
   (claim_C5_partition 1 minSelector (fun _ => true) (1, 1, 1)).2.2 [] [] (by rfl)⟩

/-- C1 (code divergence): a buried component with empty extended surface
set is not reported as occluded.  On a one-voxel buried component with no
exposed voxels the extended surface set is empty, `is_pore` returns
`False`, and `get_pores_and_cavities` therefore records the component in
the cavities dictionary; the function returns only pores and cavities, so
no occluded output exists at all. -/
theorem claim_C1_empty_surface_recorded_as_cavity :
    surface_indices {0} [((0 : ℕ), (0 : ℕ), (0 : ℕ))] [] = ∅ ∧
    is_pore minSelector {0} [((0 : ℕ), (0 : ℕ), (0 : ℕ))] [] = false ∧
    get_pores_and_cavities minSelector 1
        ⟨[(0, 0, 0)], {0}, 1, "buried", 1⟩ ⟨[], ∅, 0, "exposed", 0⟩ (1, 1, 1) =
      some ([], [component_group 1 (1, 1, 1) [(0, 0, 0)] "cavity" {0}]) :=
  ⟨by decide, by rfl, by rfl⟩

/-- Modelled from the spec: validation behaviour of the core entry point.
C8: the analysis of an empty point cloud fails with `InputError` instead of
producing an annotation; a nonempty input never yields an error, and a
zero-component result on a nonempty input is a valid annotation with all
counts zero. -/
theorem claim_C8_error_iff_empty (σ : Selector) (S : ℚ) :
    (∀ points : List Voxel,
      (∃ e, annotate_structure σ S points = Except.error e) ↔ points = []) ∧
    annotate_structure σ S [] = Except.error CoreError.inputError ∧
    annotate_structure minSelector 1 [((0 : ℕ), (0 : ℕ), (0 : ℕ))] =
      Except.ok ⟨0, 0, 0, 0, 0, 0⟩ := by
  refine ⟨?_, rfl, rfl⟩
  intro points
  constructor
  · rintro ⟨e, he⟩
    by_contra hne
    have hne2 : points.isEmpty = false := by
      cases points
      · exact absurd rfl hne
      · rfl
    have hpipe : ∃ pc, annotate_pipeline σ S points = some pc :=
      get_pores_and_cavities_isSome σ S _ _ _
    obtain ⟨pc, hpc⟩ := hpipe
    rw [show annotate_structure σ S points =
        (match annotate_pipeline σ S points with
        | none => Except.error CoreError.internal
        | some pc =>
            Except.ok ⟨pc.1.length, pc.2.length, total_volume pc.1, total_volume pc.2,
              largest_volume pc.1, largest_volume pc.2⟩) from by
      simp only [annotate_structure, hne2, Bool.false_eq_true, if_false], hpc] at he
    exact Except.noConfusion he
  · rintro rfl
    exact ⟨CoreError.inputError, rfl⟩
